import Mathlib

/-!
Formal model of the swap-offer extraction pipeline of the waku-frontend
repository (src/App.tsx together with the helpers in
src/components/AssetIcon.tsx and the base64 utilities).

Modelling conventions:
* JavaScript numbers are rationals extended with NaN and the two
  infinities (`JSNum`).  All numbers reaching the pipeline come from JSON
  literals, `parseFloat`, or arithmetic on those, so rationals are exact.
* JavaScript runtime values are modelled by `RVal` (undefined, null,
  booleans, numbers, strings, arrays, objects).
* Thrown exceptions are modelled by `Except Unit`; the pipeline's
  try/catch is the `Except` handler in `processMessage`.
* Base64 (`atob`/`btoa`) and UTF-8 encoding/decoding are implemented over
  byte lists (`List ℕ`, each entry < 256).
-/

attribute [local semireducible] Rat.add Rat.mul Rat.inv Rat.sub

set_option maxRecDepth 200000

/-! ## Decimal rendering of natural numbers (JavaScript `String(n)`) -/

def digVal (c : Char) : ℕ := c.toNat - 48

/-- Decimal digits of `n`, most significant first (fuel-indexed and
structural so that the kernel can evaluate it; `fuel ≥ n` suffices). -/
def natDecAux : ℕ → ℕ → List Char
  | 0, _ => []
  | fuel + 1, n =>
      if n = 0 then [] else natDecAux fuel (n / 10) ++ [Nat.digitChar (n % 10)]

def natDecL (n : ℕ) : List Char :=
  if n = 0 then ['0'] else natDecAux (n + 1) n

def natDec (n : ℕ) : String := ⟨natDecL n⟩

def charsToNat (cs : List Char) : ℕ := cs.foldl (fun a c => a * 10 + digVal c) 0

theorem digVal_digitChar {d : ℕ} (h : d < 10) : digVal (Nat.digitChar d) = d := by
  interval_cases d <;> decide

theorem isDigit_digitChar {d : ℕ} (h : d < 10) : (Nat.digitChar d).isDigit = true := by
  interval_cases d <;> decide

theorem digitChar_ne_dash {d : ℕ} (h : d < 10) : Nat.digitChar d ≠ '-' := by
  interval_cases d <;> decide

theorem charsToNat_append_digit (xs : List Char) (d : Char) :
    charsToNat (xs ++ [d]) = charsToNat xs * 10 + digVal d := by
  simp [charsToNat, List.foldl_append]

theorem charsToNat_natDecAux (f : ℕ) : ∀ n ≤ f, charsToNat (natDecAux f n) = n := by
  induction f with
  | zero =>
      intro n hn
      have : n = 0 := by omega
      subst this
      simp [natDecAux, charsToNat]
  | succ f ih =>
      intro n hn
      unfold natDecAux
      by_cases h0 : n = 0
      · rw [if_pos h0]
        simp [charsToNat]
        omega
      · rw [if_neg h0, charsToNat_append_digit,
          ih (n / 10) (by omega),
          digVal_digitChar (Nat.mod_lt _ (by norm_num))]
        omega

theorem charsToNat_natDecL (n : ℕ) : charsToNat (natDecL n) = n := by
  unfold natDecL
  by_cases h : n = 0
  · rw [if_pos h]
    subst h
    decide
  · rw [if_neg h]
    exact charsToNat_natDecAux (n + 1) n (by omega)

theorem natDecL_inj {m n : ℕ} (h : natDecL m = natDecL n) : m = n := by
  have := congrArg charsToNat h
  rwa [charsToNat_natDecL, charsToNat_natDecL] at this

theorem natDec_inj {m n : ℕ} (h : natDec m = natDec n) : m = n :=
  natDecL_inj (congrArg String.data h)

theorem natDecAux_mem (f : ℕ) : ∀ n, ∀ c ∈ natDecAux f n,
    ∃ d, d < 10 ∧ c = Nat.digitChar d := by
  induction f with
  | zero => intro n c hc; simp [natDecAux] at hc
  | succ f ih =>
      intro n c hc
      unfold natDecAux at hc
      by_cases h0 : n = 0
      · rw [if_pos h0] at hc
        simp at hc
      · rw [if_neg h0] at hc
        rcases List.mem_append.mp hc with hmem | hmem
        · exact ih (n / 10) c hmem
        · simp only [List.mem_singleton] at hmem
          exact ⟨n % 10, Nat.mod_lt _ (by norm_num), hmem⟩

theorem natDecL_ne_dash (n : ℕ) : ∀ c ∈ natDecL n, c ≠ '-' := by
  intro c hc
  unfold natDecL at hc
  by_cases h : n = 0
  · rw [if_pos h] at hc
    simp only [List.mem_singleton] at hc
    subst hc; decide
  · rw [if_neg h] at hc
    obtain ⟨d, hd, rfl⟩ := natDecAux_mem (n + 1) n c hc
    exact digitChar_ne_dash hd

theorem natDecL_isDigit (n : ℕ) : ∀ c ∈ natDecL n, c.isDigit = true := by
  intro c hc
  unfold natDecL at hc
  by_cases h : n = 0
  · rw [if_pos h] at hc
    simp only [List.mem_singleton] at hc
    subst hc; decide
  · rw [if_neg h] at hc
    obtain ⟨d, hd, rfl⟩ := natDecAux_mem (n + 1) n c hc
    exact isDigit_digitChar hd

theorem natDecL_ne_nil (n : ℕ) : natDecL n ≠ [] := by
  unfold natDecL
  by_cases h : n = 0
  · rw [if_pos h]; simp
  · rw [if_neg h]
    unfold natDecAux
    rw [if_neg h]
    simp

/-! ## JavaScript numbers: rationals extended with NaN and infinities -/

inductive JSNum where
  | num (q : ℚ)
  | nan
  | inf
  | neginf
deriving DecidableEq, Repr

/-- Truthiness of a JavaScript number: 0 and NaN are falsy. -/
def JSNum.truthy : JSNum → Bool
  | .num q => q != 0
  | .nan => false
  | _ => true

/-- The JavaScript `isFinite` predicate. -/
def JSNum.finite : JSNum → Bool
  | .num _ => true
  | _ => false

/-- The JavaScript comparison `x > q` (NaN compares false). -/
def JSNum.gtQ : JSNum → ℚ → Bool
  | .num a, q => a > q
  | .inf, _ => true
  | _, _ => false

/-- The JavaScript comparison `x <= q` (NaN compares false). -/
def JSNum.leQ : JSNum → ℚ → Bool
  | .num a, q => a ≤ q
  | .neginf, _ => true
  | _, _ => false

/-- The JavaScript comparison `x >= q` (NaN compares false). -/
def JSNum.geQ : JSNum → ℚ → Bool
  | .num a, q => a ≥ q
  | .inf, _ => true
  | _, _ => false

/-- The JavaScript comparison `x < q` (NaN compares false). -/
def JSNum.ltQ : JSNum → ℚ → Bool
  | .num a, q => a < q
  | .neginf, _ => true
  | _, _ => false

/-- JavaScript division (signed zero is not modelled; a zero divisor is
treated as positive zero, which matches every division reachable in the
pipeline). -/
def JSNum.div : JSNum → JSNum → JSNum
  | .nan, _ => .nan
  | _, .nan => .nan
  | .num a, .num b =>
      if b = 0 then (if a = 0 then .nan else if a > 0 then .inf else .neginf)
      else .num (a / b)
  | .num _, .inf => .num 0
  | .num _, .neginf => .num 0
  | .inf, .num b => if b < 0 then .neginf else .inf
  | .neginf, .num b => if b < 0 then .inf else .neginf
  | .inf, .inf => .nan
  | .inf, .neginf => .nan
  | .neginf, .inf => .nan
  | .neginf, .neginf => .nan

/-- Left-pad the decimal rendering of `m` with zeros to `len` digits. -/
def zeroPadL (len : ℕ) (m : ℕ) : List Char :=
  List.replicate (len - (natDecL m).length) '0' ++ natDecL m

/-- Digits of `a` with a decimal point `e` places from the right
(`decPointL 105 2 = "1.05"`). -/
def decPointL (a : ℕ) (e : ℕ) : List Char :=
  if e = 0 then natDecL a
  else natDecL (a / 10 ^ e) ++ '.' :: zeroPadL e (a % 10 ^ e)

/-- `Number.prototype.toFixed` on a finite value: the magnitude is rounded
to the nearest multiple of `10 ^ (-d)`, ties towards the larger multiple,
and the sign of a negative input is prepended (ES2023 §21.1.3.3; the
`|x| ≥ 10^21` fallback to `toString` is outside the range exercised
here). -/
def toFixedQ (q : ℚ) (d : ℕ) : String :=
  let a : ℚ := |q|
  let n : ℕ := (a * 10 ^ d + 1 / 2).floor.toNat
  let body := if d = 0 then natDecL n
    else natDecL (n / 10 ^ d) ++ '.' :: zeroPadL d (n % 10 ^ d)
  ⟨if q < 0 then '-' :: body else body⟩

def JSNum.toFixed : JSNum → ℕ → String
  | .nan, _ => "NaN"
  | .inf, _ => "Infinity"
  | .neginf, _ => "-Infinity"
  | .num q, d => toFixedQ q d

/-- `Number.prototype.toString` on a finite value: the canonical decimal
expansion when one exists (every JavaScript double has one; the fallback
for non-decimal rationals is unreachable from values the pipeline
produces, as is the exponent notation JavaScript uses beyond 10^21). -/
def ratDecStr (q : ℚ) : String :=
  match (List.range (q.den + 1)).find? (fun e => q.den ∣ 10 ^ e) with
  | some e =>
      let a := (q * 10 ^ e).num.natAbs
      ⟨(if q.num < 0 then ['-'] else []) ++ decPointL a e⟩
  | none => "0"

def JSNum.toStr : JSNum → String
  | .nan => "NaN"
  | .inf => "Infinity"
  | .neginf => "-Infinity"
  | .num q => ratDecStr q

/-! ## JavaScript runtime values -/

inductive RVal where
  | rundef
  | rnull
  | rbool (b : Bool)
  | rnum (x : JSNum)
  | rstr (s : String)
  | rarr (xs : List RVal)
  | robj (fs : List (String × RVal))
deriving Repr

/-- JavaScript truthiness. -/
def RVal.truthy : RVal → Bool
  | .rundef => false
  | .rnull => false
  | .rbool b => b
  | .rnum x => x.truthy
  | .rstr s => s != ""
  | .rarr _ => true
  | .robj _ => true

/-- The JavaScript test `typeof v === 'object'` (true for null, arrays and
plain objects). -/
def RVal.isObjType : RVal → Bool
  | .rnull => true
  | .rarr _ => true
  | .robj _ => true
  | _ => false

/-- The JavaScript strict test `v === 0`. -/
def RVal.isZero : RVal → Bool
  | .rnum (.num q) => q == 0
  | _ => false

/-- Key lookup in an object, last binding wins (JSON.parse keeps the last
duplicate key). -/
def objLookup (fs : List (String × RVal)) (k : String) : Option RVal :=
  fs.foldl (fun acc p => if p.1 = k then some p.2 else acc) none

/-- JavaScript property access `v[k]`: throws a TypeError on null and
undefined; yields undefined for an absent key and on primitives. -/
def RVal.get : RVal → String → Except Unit RVal
  | .rundef, _ => throw ()
  | .rnull, _ => throw ()
  | .robj fs, k => pure ((objLookup fs k).getD .rundef)
  | _, _ => pure .rundef

mutual

/-- JavaScript string conversion as used inside `Array.prototype.join`,
where null and undefined render as the empty string. -/
def jsValStr : RVal → String
  | .rundef => ""
  | .rnull => ""
  | .rbool b => cond b "true" "false"
  | .rnum x => x.toStr
  | .rstr s => s
  | .rarr xs => String.intercalate "," (jsValStrList xs)
  | .robj _ => "[object Object]"

def jsValStrList : List RVal → List String
  | [] => []
  | v :: vs => jsValStr v :: jsValStrList vs

end

/-- The JavaScript call `v.toString()`: throws on null and undefined. -/
def RVal.toStrE : RVal → Except Unit String
  | .rundef => throw ()
  | .rnull => throw ()
  | v => pure (jsValStr v)

/-! ## `parseFloat` -/

def isWsChar (c : Char) : Bool :=
  c == ' ' || c == '\t' || c == '\n' || c == '\r' ||
  c == Char.ofNat 11 || c == Char.ofNat 12

def isPrefL : List Char → List Char → Bool
  | [], _ => true
  | _ :: _, [] => false
  | a :: as, b :: bs => a == b && isPrefL as bs

def expDigits : List Char → ℤ
  | '+' :: r2 => (charsToNat (r2.takeWhile Char.isDigit) : ℤ)
  | '-' :: r2 =>
      if r2.takeWhile Char.isDigit = [] then 0
      else -(charsToNat (r2.takeWhile Char.isDigit) : ℤ)
  | r2 => (charsToNat (r2.takeWhile Char.isDigit) : ℤ)

/-- The exponent part of a float literal: `e`/`E`, optional sign, digits;
ignored (as `parseFloat` does) when no digits follow. -/
def expPart (cs : List Char) : ℤ :=
  match cs with
  | 'e' :: r => expDigits r
  | 'E' :: r => expDigits r
  | _ => 0

def applyExp (q : ℚ) (e : ℤ) : ℚ :=
  if 0 ≤ e then q * 10 ^ e.toNat else q / 10 ^ (-e).toNat

def parseFloatVal (neg : Bool) (ip : ℕ) (fs : List Char) (rest : List Char) : JSNum :=
  let base : ℚ := ip + (charsToNat fs : ℚ) / 10 ^ fs.length
  let v := applyExp base (expPart rest)
  .num (if neg then -v else v)

def parseFloatCore (neg : Bool) (cs : List Char) : JSNum :=
  if isPrefL "Infinity".toList cs then (if neg then .neginf else .inf) else
  let ds := cs.takeWhile Char.isDigit
  let r1 := cs.dropWhile Char.isDigit
  if ds.isEmpty then
    match r1 with
    | '.' :: r2 =>
        let fs := r2.takeWhile Char.isDigit
        if fs.isEmpty then .nan
        else parseFloatVal neg 0 fs (r2.dropWhile Char.isDigit)
    | _ => .nan
  else
    match r1 with
    | '.' :: r2 =>
        parseFloatVal neg (charsToNat ds) (r2.takeWhile Char.isDigit)
          (r2.dropWhile Char.isDigit)
    | _ => parseFloatVal neg (charsToNat ds) [] r1

/-- The JavaScript `parseFloat`: skip whitespace, optional sign, then the
longest valid decimal (or `Infinity`) literal; NaN when none. -/
def parseFloatL (cs : List Char) : JSNum :=
  match cs.dropWhile isWsChar with
  | '+' :: r => parseFloatCore false r
  | '-' :: r => parseFloatCore true r
  | r => parseFloatCore false r

def parseFloatS (s : String) : JSNum := parseFloatL s.data

/-- `parseFloat(v.toString())` as used by the extractor.  For a number
argument the composite is the identity (JavaScript doubles round-trip
through their decimal rendering), and it is modelled as such. -/
def coerceNumE (v : RVal) : Except Unit JSNum :=
  match v with
  | .rnum x => pure x
  | v => (RVal.toStrE v).map (fun s => parseFloatS s)

/-- The JavaScript pattern `parseFloat(v.toString()) || v` (debug-mode
amount extraction): the parsed number unless it is falsy (0 or NaN), in
which case the original value is kept. -/
def numOrE (v : RVal) : Except Unit RVal :=
  match v with
  | .rnum x => pure (if x.truthy then .rnum x else v)
  | v => (RVal.toStrE v).map (fun s =>
      let p := parseFloatS s
      if p.truthy then .rnum p else v)

/-- The debug-mode coercion
`typeof v === 'number' ? v : parseFloat(v.toString()) || 0`. -/
def debugCoerceE (v : RVal) : Except Unit JSNum :=
  match v with
  | .rnum x => pure x
  | v => (RVal.toStrE v).map (fun s =>
      let p := parseFloatS s
      if p.truthy then p else .num 0)

/-! ## Base64 (`btoa` / `atob`, WHATWG forgiving-base64) -/

def b64Char (v : ℕ) : Char :=
  if v < 26 then Char.ofNat (65 + v)
  else if v < 52 then Char.ofNat (97 + (v - 26))
  else if v < 62 then Char.ofNat (48 + (v - 52))
  else if v = 62 then '+' else '/'

def b64Val (c : Char) : Option ℕ :=
  if 'A' ≤ c ∧ c ≤ 'Z' then some (c.toNat - 65)
  else if 'a' ≤ c ∧ c ≤ 'z' then some (c.toNat - 71)
  else if '0' ≤ c ∧ c ≤ '9' then some (c.toNat + 4)
  else if c = '+' then some 62
  else if c = '/' then some 63
  else none

/-- `btoa` on a byte list (the composite
`base64FromBytes` ∘ binary-string construction of the source). -/
def btoaL : List ℕ → List Char
  | [] => []
  | [b0] => [b64Char (b0 / 4), b64Char (b0 % 4 * 16), '=', '=']
  | [b0, b1] => [b64Char (b0 / 4), b64Char (b0 % 4 * 16 + b1 / 16),
      b64Char (b1 % 16 * 4), '=']
  | b0 :: b1 :: b2 :: rest =>
      b64Char (b0 / 4) :: b64Char (b0 % 4 * 16 + b1 / 16) ::
      b64Char (b1 % 16 * 4 + b2 / 64) :: b64Char (b2 % 64) :: btoaL rest

/-- ASCII whitespace stripped by forgiving-base64. -/
def isB64Ws (c : Char) : Bool :=
  c == ' ' || c == '\t' || c == '\n' || c == Char.ofNat 12 || c == '\r'

/-- All-or-nothing map over a list. -/
def mapOpt (f : α → Option β) : List α → Option (List β)
  | [] => some []
  | a :: as =>
      match f a, mapOpt f as with
      | some b, some bs => some (b :: bs)
      | _, _ => none

/-- Remove up to two trailing `=` characters. -/
def dropPad (cs : List Char) : List Char :=
  if cs.getLast? = some '=' then
    if cs.dropLast.getLast? = some '=' then cs.dropLast.dropLast else cs.dropLast
  else cs

def sextetsToBytes : List ℕ → List ℕ
  | v1 :: v2 :: v3 :: v4 :: rest =>
      (v1 * 4 + v2 / 16) :: (v2 % 16 * 16 + v3 / 4) :: (v3 % 4 * 64 + v4) ::
      sextetsToBytes rest
  | [v1, v2, v3] => [v1 * 4 + v2 / 16, v2 % 16 * 16 + v3 / 4]
  | [v1, v2] => [v1 * 4 + v2 / 16]
  | _ => []

/-- `atob` (WHATWG forgiving-base64 decode): strip ASCII whitespace, strip
up to two trailing `=` when the length is a multiple of four, fail on a
remainder of one or on any character outside the alphabet, then rebuild
bytes from sextets (spare bits of a trailing chunk are discarded). -/
def atobL (cs : List Char) : Option (List ℕ) :=
  let cleaned := cs.filter (fun c => !isB64Ws c)
  let stripped := if cleaned.length % 4 = 0 then dropPad cleaned else cleaned
  if stripped.length % 4 = 1 then none
  else (mapOpt b64Val stripped).map sextetsToBytes

def atobS (s : String) : Option (List ℕ) := atobL s.data

theorem b64Char_spec {v : ℕ} (h : v < 64) :
    b64Val (b64Char v) = some v ∧ isB64Ws (b64Char v) = false ∧ b64Char v ≠ '=' := by
  interval_cases v <;> exact ⟨by decide, by decide, by decide⟩

theorem btoaL_length_mod (bs : List ℕ) : (btoaL bs).length % 4 = 0 := by
  induction bs using btoaL.induct with
  | case1 => simp [btoaL]
  | case2 b0 => simp [btoaL]
  | case3 b0 b1 => simp [btoaL]
  | case4 b0 b1 b2 rest ih => simp [btoaL, Nat.add_mod, ih]

def b64Dec (cs : List Char) : Option (List ℕ) :=
  (mapOpt b64Val cs).map sextetsToBytes

theorem mem_btoaL_not_ws (bs : List ℕ) (h : ∀ b ∈ bs, b < 256) :
    ∀ c ∈ btoaL bs, isB64Ws c = false := by
  induction bs using btoaL.induct with
  | case1 => simp [btoaL]
  | case2 b0 =>
      intro c hc
      have hb0 : b0 < 256 := h b0 (by simp)
      simp only [btoaL, List.mem_cons, List.not_mem_nil, or_false] at hc
      rcases hc with rfl | rfl | rfl | rfl
      · exact (b64Char_spec (by omega)).2.1
      · exact (b64Char_spec (by omega)).2.1
      · decide
      · decide
  | case3 b0 b1 =>
      intro c hc
      have hb0 : b0 < 256 := h b0 (by simp)
      have hb1 : b1 < 256 := h b1 (by simp)
      simp only [btoaL, List.mem_cons, List.not_mem_nil, or_false] at hc
      rcases hc with rfl | rfl | rfl | rfl
      · exact (b64Char_spec (by omega)).2.1
      · exact (b64Char_spec (by omega)).2.1
      · exact (b64Char_spec (by omega)).2.1
      · decide
  | case4 b0 b1 b2 rest ih =>
      intro c hc
      have hb0 : b0 < 256 := h b0 (by simp)
      have hb1 : b1 < 256 := h b1 (by simp)
      have hb2 : b2 < 256 := h b2 (by simp)
      simp only [btoaL, List.mem_cons] at hc
      rcases hc with rfl | rfl | rfl | rfl | hmem
      · exact (b64Char_spec (by omega)).2.1
      · exact (b64Char_spec (by omega)).2.1
      · exact (b64Char_spec (by omega)).2.1
      · exact (b64Char_spec (by omega)).2.1
      · exact ih (fun b hb => h b (by simp [hb])) c hmem

theorem filter_btoaL (bs : List ℕ) (h : ∀ b ∈ bs, b < 256) :
    (btoaL bs).filter (fun c => !isB64Ws c) = btoaL bs := by
  rw [List.filter_eq_self]
  intro c hc
  rw [mem_btoaL_not_ws bs h c hc]
  rfl

theorem dropPad_length_le (cs : List Char) : (dropPad cs).length ≤ cs.length := by
  unfold dropPad
  split
  · split <;> simp only [List.length_dropLast] <;> omega
  · omega

theorem dropPad_length_ge (cs : List Char) : cs.length ≤ (dropPad cs).length + 2 := by
  unfold dropPad
  split
  · split <;> simp only [List.length_dropLast] <;> omega
  · omega

theorem dropPad_no_pad (cs : List Char) (h : cs.getLast? ≠ some '=') :
    dropPad cs = cs := by
  unfold dropPad
  rw [if_neg h]

theorem dropPad_prepend (xs ys : List Char) (h2 : 2 ≤ ys.length) :
    dropPad (xs ++ ys) = xs ++ dropPad ys := by
  have hne : ys ≠ [] := by
    intro hh
    subst hh
    simp at h2
  unfold dropPad
  rw [List.getLast?_append_of_ne_nil _ hne, List.dropLast_append_of_ne_nil _ hne]
  by_cases hl : ys.getLast? = some '='
  · have hne2 : ys.dropLast ≠ [] := by
      have := List.length_dropLast ys
      intro hh
      rw [hh] at this
      simp at this
      omega
    rw [if_pos hl, if_pos hl, List.getLast?_append_of_ne_nil _ hne2]
    by_cases hl2 : ys.dropLast.getLast? = some '='
    · rw [if_pos hl2, if_pos hl2, List.dropLast_append_of_ne_nil _ hne2]
    · rw [if_neg hl2, if_neg hl2]
  · rw [if_neg hl, if_neg hl]

theorem mapOpt_append (f : α → Option β) (l1 l2 : List α) (xs : List β)
    (h : mapOpt f l1 = some xs) :
    mapOpt f (l1 ++ l2) = (mapOpt f l2).map (fun ys => xs ++ ys) := by
  induction l1 generalizing xs with
  | nil =>
      simp only [mapOpt] at h
      cases h
      cases h2 : mapOpt f l2 <;> simp [h2]
  | cons a as ih =>
      simp only [mapOpt, List.cons_append] at h ⊢
      cases hfa : f a with
      | none => rw [hfa] at h; simp at h
      | some b =>
          rw [hfa] at h
          cases has : mapOpt f as with
          | none => rw [has] at h; simp at h
          | some bs =>
              rw [has] at h
              simp only [Option.some.injEq] at h
              subst h
              rw [List.append_eq, ih bs has]
              cases h2 : mapOpt f l2 <;> simp [h2]

theorem btoaL_len2 (bs : List ℕ) (h : bs ≠ []) : 2 ≤ (btoaL bs).length := by
  match bs with
  | [b0] => simp [btoaL]
  | [b0, b1] => simp [btoaL]
  | b0 :: b1 :: b2 :: rest => simp [btoaL]

theorem b64Dec_dropPad_btoaL (bs : List ℕ) (h : ∀ b ∈ bs, b < 256) :
    b64Dec (dropPad (btoaL bs)) = some bs := by
  induction bs using btoaL.induct with
  | case1 => decide
  | case2 b0 =>
      have hb0 : b0 < 256 := h b0 (by simp)
      have e : btoaL [b0]
          = [b64Char (b0 / 4), b64Char (b0 % 4 * 16)] ++ ['=', '='] := rfl
      rw [e, dropPad_prepend _ _ (by simp)]
      have e2 : dropPad ['=', '='] = [] := by decide
      rw [e2, List.append_nil]
      have h1 := (b64Char_spec (show b0 / 4 < 64 by omega)).1
      have h2 := (b64Char_spec (show b0 % 4 * 16 < 64 by omega)).1
      simp [b64Dec, mapOpt, h1, h2, sextetsToBytes]
      omega
  | case3 b0 b1 =>
      have hb0 : b0 < 256 := h b0 (by simp)
      have hb1 : b1 < 256 := h b1 (by simp)
      have e : btoaL [b0, b1]
          = [b64Char (b0 / 4), b64Char (b0 % 4 * 16 + b1 / 16)]
            ++ [b64Char (b1 % 16 * 4), '='] := rfl
      rw [e, dropPad_prepend _ _ (by simp)]
      have e2 : dropPad [b64Char (b1 % 16 * 4), '='] = [b64Char (b1 % 16 * 4)] := by
        unfold dropPad
        rw [if_pos (show List.getLast? [b64Char (b1 % 16 * 4), '='] = some '='
          from rfl), if_neg (by
          intro hEq
          exact (b64Char_spec (show b1 % 16 * 4 < 64 by omega)).2.2
            (Option.some.inj hEq))]
        rfl
      rw [e2]
      have h1 := (b64Char_spec (show b0 / 4 < 64 by omega)).1
      have h2 := (b64Char_spec (show b0 % 4 * 16 + b1 / 16 < 64 by omega)).1
      have h3 := (b64Char_spec (show b1 % 16 * 4 < 64 by omega)).1
      simp [b64Dec, mapOpt, h1, h2, h3, sextetsToBytes]
      omega
  | case4 b0 b1 b2 rest ih =>
      have hb0 : b0 < 256 := h b0 (by simp)
      have hb1 : b1 < 256 := h b1 (by simp)
      have hb2 : b2 < 256 := h b2 (by simp)
      have ih' := ih (fun b hb => h b (by simp [hb]))
      have h1 := (b64Char_spec (show b0 / 4 < 64 by omega)).1
      have h2 := (b64Char_spec (show b0 % 4 * 16 + b1 / 16 < 64 by omega)).1
      have h3 := (b64Char_spec (show b1 % 16 * 4 + b2 / 64 < 64 by omega)).1
      have h4 := (b64Char_spec (show b2 % 64 < 64 by omega)).1
      by_cases hrest : rest = []
      · subst hrest
        have e : btoaL [b0, b1, b2]
            = [b64Char (b0 / 4), b64Char (b0 % 4 * 16 + b1 / 16),
               b64Char (b1 % 16 * 4 + b2 / 64), b64Char (b2 % 64)] := rfl
        have hlast : (btoaL [b0, b1, b2]).getLast? = some (b64Char (b2 % 64)) := rfl
        rw [dropPad_no_pad _ (by
          rw [hlast]
          intro hEq
          exact (b64Char_spec (show b2 % 64 < 64 by omega)).2.2
            (Option.some.inj hEq)), e]
        simp [b64Dec, mapOpt, h1, h2, h3, h4, sextetsToBytes]
        omega
      · have e : btoaL (b0 :: b1 :: b2 :: rest)
            = [b64Char (b0 / 4), b64Char (b0 % 4 * 16 + b1 / 16),
               b64Char (b1 % 16 * 4 + b2 / 64), b64Char (b2 % 64)]
              ++ btoaL rest := rfl
        rw [e, dropPad_prepend _ _ (btoaL_len2 rest hrest)]
        obtain ⟨vs, hvs, hsx⟩ : ∃ vs,
            mapOpt b64Val (dropPad (btoaL rest)) = some vs
              ∧ sextetsToBytes vs = rest := by
          unfold b64Dec at ih'
          cases hm : mapOpt b64Val (dropPad (btoaL rest)) with
          | none => rw [hm] at ih'; simp at ih'
          | some vs =>
              rw [hm] at ih'
              simp only [Option.map_some', Option.some.injEq] at ih'
              exact ⟨vs, rfl, ih'⟩
        have hm4 : mapOpt b64Val
            [b64Char (b0 / 4), b64Char (b0 % 4 * 16 + b1 / 16),
             b64Char (b1 % 16 * 4 + b2 / 64), b64Char (b2 % 64)]
            = some [b0 / 4, b0 % 4 * 16 + b1 / 16, b1 % 16 * 4 + b2 / 64,
                b2 % 64] := by
          simp [mapOpt, h1, h2, h3, h4]
        unfold b64Dec
        rw [mapOpt_append _ _ _ _ hm4, hvs]
        simp only [Option.map_some', List.cons_append, List.nil_append,
          sextetsToBytes, hsx, Option.some.injEq, List.cons.injEq]
        refine ⟨by omega, by omega, by omega, trivial⟩

/-- Round trip: `atob (btoa bytes)` recovers the bytes. -/
theorem atobL_btoaL (bs : List ℕ) (h : ∀ b ∈ bs, b < 256) :
    atobL (btoaL bs) = some bs := by
  unfold atobL
  simp only [filter_btoaL bs h, btoaL_length_mod bs, if_pos]
  have hlen : ¬((dropPad (btoaL bs)).length % 4 = 1) := by
    have h1 := dropPad_length_le (btoaL bs)
    have h2 := dropPad_length_ge (btoaL bs)
    have h3 := btoaL_length_mod bs
    omega
  rw [if_neg hlen]
  exact b64Dec_dropPad_btoaL bs h

/-! ## UTF-8 (TextEncoder / TextDecoder with replacement) -/

theorem toNat_ofNat_valid (n : ℕ) (h : n.isValidChar) : (Char.ofNat n).toNat = n := by
  unfold Char.ofNat
  rw [dif_pos h]
  unfold Char.ofNatAux Char.toNat
  simp [UInt32.toNat, BitVec.toNat_ofNatLt]

theorem char_valid_nat (c : Char) :
    c.toNat < 0xd800 ∨ (0xe000 ≤ c.toNat ∧ c.toNat < 0x110000) := by
  have h := c.valid
  unfold UInt32.isValidChar Nat.isValidChar at h
  exact h

def utf8EncodeChar (c : Char) : List ℕ :=
  if c.toNat < 0x80 then [c.toNat]
  else if c.toNat < 0x800 then [0xC0 + c.toNat / 64, 0x80 + c.toNat % 64]
  else if c.toNat < 0x10000 then
    [0xE0 + c.toNat / 4096, 0x80 + c.toNat / 64 % 64, 0x80 + c.toNat % 64]
  else
    [0xF0 + c.toNat / 262144, 0x80 + c.toNat / 4096 % 64,
     0x80 + c.toNat / 64 % 64, 0x80 + c.toNat % 64]

def utf8EncodeL : List Char → List ℕ
  | [] => []
  | c :: cs => utf8EncodeChar c ++ utf8EncodeL cs

def replChar : Char := Char.ofNat 0xFFFD

/-- The WHATWG UTF-8 decoder in replacement (non-fatal) mode, as used by
`new TextDecoder().decode`: malformed input never fails, each maximal
invalid subpart becomes U+FFFD. -/
def utf8DecodeL : List ℕ → List Char
  | [] => []
  | b :: rest =>
    if b < 0x80 then Char.ofNat b :: utf8DecodeL rest
    else if 0xC2 ≤ b ∧ b ≤ 0xDF then
      (match rest with
      | b1 :: r1 =>
          if 0x80 ≤ b1 ∧ b1 ≤ 0xBF then
            Char.ofNat ((b - 0xC0) * 64 + (b1 - 0x80)) :: utf8DecodeL r1
          else replChar :: utf8DecodeL (b1 :: r1)
      | [] => [replChar])
    else if 0xE0 ≤ b ∧ b ≤ 0xEF then
      (match rest with
      | b1 :: r1 =>
          if (if b = 0xE0 then 0xA0 else 0x80) ≤ b1
              ∧ b1 ≤ (if b = 0xED then 0x9F else 0xBF) then
            (match r1 with
            | b2 :: r2 =>
                if 0x80 ≤ b2 ∧ b2 ≤ 0xBF then
                  Char.ofNat ((b - 0xE0) * 4096 + (b1 - 0x80) * 64 + (b2 - 0x80))
                    :: utf8DecodeL r2
                else replChar :: utf8DecodeL (b2 :: r2)
            | [] => [replChar])
          else replChar :: utf8DecodeL (b1 :: r1)
      | [] => [replChar])
    else if 0xF0 ≤ b ∧ b ≤ 0xF4 then
      (match rest with
      | b1 :: r1 =>
          if (if b = 0xF0 then 0x90 else 0x80) ≤ b1
              ∧ b1 ≤ (if b = 0xF4 then 0x8F else 0xBF) then
            (match r1 with
            | b2 :: r2 =>
                if 0x80 ≤ b2 ∧ b2 ≤ 0xBF then
                  (match r2 with
                  | b3 :: r3 =>
                      if 0x80 ≤ b3 ∧ b3 ≤ 0xBF then
                        Char.ofNat ((b - 0xF0) * 262144 + (b1 - 0x80) * 4096
                            + (b2 - 0x80) * 64 + (b3 - 0x80))
                          :: utf8DecodeL r3
                      else replChar :: utf8DecodeL (b3 :: r3)
                  | [] => [replChar])
                else replChar :: utf8DecodeL (b2 :: r2)
            | [] => [replChar])
          else replChar :: utf8DecodeL (b1 :: r1)
      | [] => [replChar])
    else replChar :: utf8DecodeL rest

theorem utf8EncodeChar_lt256 (c : Char) : ∀ b ∈ utf8EncodeChar c, b < 256 := by
  intro b hb
  have hv : c.toNat < 0x110000 := by
    rcases char_valid_nat c with h | h
    · omega
    · omega
  unfold utf8EncodeChar at hb
  split at hb
  · simp only [List.mem_singleton] at hb
    omega
  · split at hb
    · simp only [List.mem_cons, List.not_mem_nil, or_false] at hb
      rcases hb with rfl | rfl <;> omega
    · split at hb
      · simp only [List.mem_cons, List.not_mem_nil, or_false] at hb
        rcases hb with rfl | rfl | rfl <;> omega
      · simp only [List.mem_cons, List.not_mem_nil, or_false] at hb
        rcases hb with rfl | rfl | rfl | rfl <;> omega

theorem utf8EncodeL_lt256 (cs : List Char) : ∀ b ∈ utf8EncodeL cs, b < 256 := by
  induction cs with
  | nil => simp [utf8EncodeL]
  | cons c cs ih =>
      intro b hb
      simp only [utf8EncodeL, List.mem_append] at hb
      rcases hb with hb | hb
      · exact utf8EncodeChar_lt256 c b hb
      · exact ih b hb

theorem utf8Decode_encodeChar (c : Char) (rest : List ℕ) :
    utf8DecodeL (utf8EncodeChar c ++ rest) = c :: utf8DecodeL rest := by
  have hvalid := char_valid_nat c
  have hofn : Char.ofNat c.toNat = c := Char.ofNat_toNat c
  by_cases h1 : c.toNat < 0x80
  · rw [show utf8EncodeChar c = [c.toNat] from by
      unfold utf8EncodeChar; rw [if_pos h1]]
    simp only [List.cons_append, List.nil_append]
    conv_lhs => rw [utf8DecodeL.eq_def]
    try dsimp only
    rw [if_pos h1, hofn]
  · by_cases h2 : c.toNat < 0x800
    · rw [show utf8EncodeChar c = [0xC0 + c.toNat / 64, 0x80 + c.toNat % 64] from by
        unfold utf8EncodeChar; rw [if_neg h1, if_pos h2]]
      simp only [List.cons_append, List.nil_append]
      conv_lhs => rw [utf8DecodeL.eq_def]
      try dsimp only
      rw [if_neg (by omega), if_pos (by omega)]
      try dsimp only
      rw [if_pos (by omega)]
      rw [show (0xC0 + c.toNat / 64 - 0xC0) * 64 + (0x80 + c.toNat % 64 - 0x80)
          = c.toNat from by omega, hofn]
    · by_cases h3 : c.toNat < 0x10000
      · rw [show utf8EncodeChar c
            = [0xE0 + c.toNat / 4096, 0x80 + c.toNat / 64 % 64,
               0x80 + c.toNat % 64] from by
          unfold utf8EncodeChar; rw [if_neg h1, if_neg h2, if_pos h3]]
        simp only [List.cons_append, List.nil_append]
        conv_lhs => rw [utf8DecodeL.eq_def]
        try dsimp only
        rw [if_neg (by omega), if_neg (by omega), if_pos (by omega)]
        try dsimp only
        by_cases hE0 : c.toNat / 4096 = 0
        · rw [if_pos (show 0xE0 + c.toNat / 4096 = 0xE0 by omega),
            if_neg (show ¬0xE0 + c.toNat / 4096 = 0xED by omega),
            if_pos (by omega)]
          try dsimp only
          rw [if_pos (by omega)]
          rw [show (0xE0 + c.toNat / 4096 - 0xE0) * 4096
              + (0x80 + c.toNat / 64 % 64 - 0x80) * 64
              + (0x80 + c.toNat % 64 - 0x80) = c.toNat from by omega, hofn]
        · by_cases hED : c.toNat / 4096 = 13
          · rw [if_neg (show ¬0xE0 + c.toNat / 4096 = 0xE0 by omega),
              if_pos (show 0xE0 + c.toNat / 4096 = 0xED by omega),
              if_pos (by omega)]
            try dsimp only
            rw [if_pos (by omega)]
            rw [show (0xE0 + c.toNat / 4096 - 0xE0) * 4096
                + (0x80 + c.toNat / 64 % 64 - 0x80) * 64
                + (0x80 + c.toNat % 64 - 0x80) = c.toNat from by omega, hofn]
          · rw [if_neg (show ¬0xE0 + c.toNat / 4096 = 0xE0 by omega),
              if_neg (show ¬0xE0 + c.toNat / 4096 = 0xED by omega),
              if_pos (by omega)]
            try dsimp only
            rw [if_pos (by omega)]
            rw [show (0xE0 + c.toNat / 4096 - 0xE0) * 4096
                + (0x80 + c.toNat / 64 % 64 - 0x80) * 64
                + (0x80 + c.toNat % 64 - 0x80) = c.toNat from by omega, hofn]
      · have h4 : c.toNat < 0x110000 := by omega
        rw [show utf8EncodeChar c
            = [0xF0 + c.toNat / 262144, 0x80 + c.toNat / 4096 % 64,
               0x80 + c.toNat / 64 % 64, 0x80 + c.toNat % 64] from by
          unfold utf8EncodeChar; rw [if_neg h1, if_neg h2, if_neg h3]]
        simp only [List.cons_append, List.nil_append]
        conv_lhs => rw [utf8DecodeL.eq_def]
        try dsimp only
        rw [if_neg (by omega), if_neg (by omega), if_neg (by omega),
          if_pos (by omega)]
        try dsimp only
        by_cases hF0 : c.toNat / 262144 = 0
        · rw [if_pos (show 0xF0 + c.toNat / 262144 = 0xF0 by omega),
            if_neg (show ¬0xF0 + c.toNat / 262144 = 0xF4 by omega),
            if_pos (by omega)]
          try dsimp only
          rw [if_pos (by omega)]
          try dsimp only
          rw [if_pos (by omega)]
          rw [show (0xF0 + c.toNat / 262144 - 0xF0) * 262144
              + (0x80 + c.toNat / 4096 % 64 - 0x80) * 4096
              + (0x80 + c.toNat / 64 % 64 - 0x80) * 64
              + (0x80 + c.toNat % 64 - 0x80) = c.toNat from by omega, hofn]
        · by_cases hF4 : c.toNat / 262144 = 4
          · rw [if_neg (show ¬0xF0 + c.toNat / 262144 = 0xF0 by omega),
              if_pos (show 0xF0 + c.toNat / 262144 = 0xF4 by omega),
              if_pos (by omega)]
            try dsimp only
            rw [if_pos (by omega)]
            try dsimp only
            rw [if_pos (by omega)]
            rw [show (0xF0 + c.toNat / 262144 - 0xF0) * 262144
                + (0x80 + c.toNat / 4096 % 64 - 0x80) * 4096
                + (0x80 + c.toNat / 64 % 64 - 0x80) * 64
                + (0x80 + c.toNat % 64 - 0x80) = c.toNat from by omega, hofn]
          · rw [if_neg (show ¬0xF0 + c.toNat / 262144 = 0xF0 by omega),
              if_neg (show ¬0xF0 + c.toNat / 262144 = 0xF4 by omega),
              if_pos (by omega)]
            try dsimp only
            rw [if_pos (by omega)]
            try dsimp only
            rw [if_pos (by omega)]
            rw [show (0xF0 + c.toNat / 262144 - 0xF0) * 262144
                + (0x80 + c.toNat / 4096 % 64 - 0x80) * 4096
                + (0x80 + c.toNat / 64 % 64 - 0x80) * 64
                + (0x80 + c.toNat % 64 - 0x80) = c.toNat from by omega, hofn]

theorem utf8Decode_encodeL (cs : List Char) :
    utf8DecodeL (utf8EncodeL cs) = cs := by
  induction cs with
  | nil => rfl
  | cons c cs ih =>
      rw [show utf8EncodeL (c :: cs) = utf8EncodeChar c ++ utf8EncodeL cs from rfl,
        utf8Decode_encodeChar, ih]

/-! ## The source's base64 helpers (`encodeBase64Utf8`, decode side) -/

/-- `encodeBase64Utf8` of the source: UTF-8 encode, then `btoa`. -/
def encodeBase64Utf8 (text : String) : String := ⟨btoaL (utf8EncodeL text.data)⟩

/-- The decode side used by the extractor:
`new TextDecoder().decode(bytesFromBase64(payload))`; `atob` throwing on
malformed base64 is modelled by `none`. -/
def decodeBase64Utf8 (b64 : String) : Option String :=
  (atobS b64).map (fun bs => ⟨utf8DecodeL bs⟩)

theorem decode_encodeBase64Utf8 (text : String) :
    decodeBase64Utf8 (encodeBase64Utf8 text) = some text := by
  unfold decodeBase64Utf8 encodeBase64Utf8 atobS
  rw [show (String.mk (btoaL (utf8EncodeL text.data))).data
      = btoaL (utf8EncodeL text.data) from rfl]
  rw [atobL_btoaL _ (utf8EncodeL_lt256 _)]
  rw [Option.map_some']
  rw [utf8Decode_encodeL]

/-! ## JSON (JSON.stringify string quoting, JSON.parse) -/

def lbrace : Char := Char.ofNat 123

def rbrace : Char := Char.ofNat 125

def hexDigit (n : ℕ) : Char :=
  if n < 10 then Char.ofNat (48 + n) else Char.ofNat (87 + n)

/-- `QuoteJSONString` escaping of one character (ES2023 §25.5.2.2). -/
def escJsonChar (c : Char) : List Char :=
  if c = '"' then ['\\', '"']
  else if c = '\\' then ['\\', '\\']
  else if c = Char.ofNat 8 then ['\\', 'b']
  else if c = '\t' then ['\\', 't']
  else if c = '\n' then ['\\', 'n']
  else if c = Char.ofNat 12 then ['\\', 'f']
  else if c = '\r' then ['\\', 'r']
  else if c.toNat < 0x20 then
    ['\\', 'u', '0', '0', hexDigit (c.toNat / 16), hexDigit (c.toNat % 16)]
  else [c]

def escJsonL : List Char → List Char
  | [] => []
  | c :: cs => escJsonChar c ++ escJsonL cs

/-- A JSON string literal as produced by `JSON.stringify`. -/
def strLitJson (s : String) : String := ⟨'"' :: (escJsonL s.data ++ ['"'])⟩

def hexVal (c : Char) : Option ℕ :=
  if '0' ≤ c ∧ c ≤ '9' then some (c.toNat - 48)
  else if 'a' ≤ c ∧ c ≤ 'f' then some (c.toNat - 87)
  else if 'A' ≤ c ∧ c ≤ 'F' then some (c.toNat - 55)
  else none

/-- Body of a JSON string literal, after the opening quote (fuel-indexed;
one unit of fuel per decoded character, so `length + 1` always suffices):
returns the decoded characters and the remainder after the closing quote.
Surrogate escape pairs are not combined here: a surrogate escape (which a
JavaScript string can hold but a Lean `Char` cannot) is modelled as
U+FFFD and is unreachable from payloads this development evaluates. -/
def psbF : ℕ → List Char → Option (List Char × List Char)
  | 0, _ => none
  | _ + 1, [] => none
  | fuel + 1, c :: rest =>
    if c = '"' then some ([], rest)
    else if c = '\\' then
      match rest with
      | 'n' :: r => (psbF fuel r).map (fun p => ('\n' :: p.1, p.2))
      | 't' :: r => (psbF fuel r).map (fun p => ('\t' :: p.1, p.2))
      | 'r' :: r => (psbF fuel r).map (fun p => ('\r' :: p.1, p.2))
      | 'b' :: r => (psbF fuel r).map (fun p => (Char.ofNat 8 :: p.1, p.2))
      | 'f' :: r => (psbF fuel r).map (fun p => (Char.ofNat 12 :: p.1, p.2))
      | '"' :: r => (psbF fuel r).map (fun p => ('"' :: p.1, p.2))
      | '\\' :: r => (psbF fuel r).map (fun p => ('\\' :: p.1, p.2))
      | '/' :: r => (psbF fuel r).map (fun p => ('/' :: p.1, p.2))
      | 'u' :: h1 :: h2 :: h3 :: h4 :: r =>
          (match hexVal h1, hexVal h2, hexVal h3, hexVal h4 with
          | some a, some b, some cc, some d =>
              if 0xD800 ≤ a * 4096 + b * 256 + cc * 16 + d
                  ∧ a * 4096 + b * 256 + cc * 16 + d ≤ 0xDFFF then
                (psbF fuel r).map (fun p => (replChar :: p.1, p.2))
              else (psbF fuel r).map (fun p =>
                (Char.ofNat (a * 4096 + b * 256 + cc * 16 + d) :: p.1, p.2))
          | _, _, _, _ => none)
      | _ => none
    else if c.toNat < 0x20 then none
    else (psbF fuel rest).map (fun p => (c :: p.1, p.2))

def parseStrBody (cs : List Char) : Option (List Char × List Char) :=
  psbF (cs.length + 1) cs

theorem hexVal_hexDigit {n : ℕ} (h : n < 16) : hexVal (hexDigit n) = some n := by
  interval_cases n <;> decide

theorem escJsonL_append (a b : List Char) :
    escJsonL (a ++ b) = escJsonL a ++ escJsonL b := by
  induction a with
  | nil => rfl
  | cons c cs ih => simp [escJsonL, ih]

theorem psbF_esc (s : List Char) (rest : List Char) (f : ℕ) :
    psbF (f + s.length + 1) (escJsonL s ++ '"' :: rest) = some (s, rest) := by
  induction s generalizing f with
  | nil =>
      show psbF (f + 0 + 1) ('"' :: rest) = some ([], rest)
      rfl
  | cons c cs ih =>
      have hval := char_valid_nat c
      have hofn : Char.ofNat c.toNat = c := Char.ofNat_toNat c
      rw [show escJsonL (c :: cs) = escJsonChar c ++ escJsonL cs from rfl,
        List.append_assoc,
        show f + (c :: cs).length + 1 = (f + cs.length + 1) + 1 from by
          simp [List.length_cons]; omega]
      unfold escJsonChar
      by_cases h1 : c = '"'
      · subst h1
        rw [if_pos rfl]
        show psbF _ ('\\' :: '"' :: (escJsonL cs ++ '"' :: rest)) = _
        rw [show psbF ((f + cs.length + 1) + 1)
              ('\\' :: '"' :: (escJsonL cs ++ '"' :: rest))
            = (psbF (f + cs.length + 1) (escJsonL cs ++ '"' :: rest)).map
                (fun p => ('"' :: p.1, p.2)) from rfl, ih f]
        rfl
      · rw [if_neg h1]
        by_cases h2 : c = '\\'
        · subst h2
          rw [if_pos rfl]
          show psbF _ ('\\' :: '\\' :: (escJsonL cs ++ '"' :: rest)) = _
          rw [show psbF ((f + cs.length + 1) + 1)
                ('\\' :: '\\' :: (escJsonL cs ++ '"' :: rest))
              = (psbF (f + cs.length + 1) (escJsonL cs ++ '"' :: rest)).map
                  (fun p => ('\\' :: p.1, p.2)) from rfl, ih f]
          rfl
        · rw [if_neg h2]
          by_cases h3 : c = Char.ofNat 8
          · subst h3
            rw [if_pos rfl]
            simp only [List.cons_append, List.nil_append]
            rw [show psbF ((f + cs.length + 1) + 1)
                  ('\\' :: 'b' :: (escJsonL cs ++ '"' :: rest))
                = (psbF (f + cs.length + 1) (escJsonL cs ++ '"' :: rest)).map
                    (fun p => (Char.ofNat 8 :: p.1, p.2)) from rfl, ih f]
            rfl
          · rw [if_neg h3]
            by_cases h4 : c = '\t'
            · subst h4
              rw [if_pos rfl]
              simp only [List.cons_append, List.nil_append]
              rw [show psbF ((f + cs.length + 1) + 1)
                    ('\\' :: 't' :: (escJsonL cs ++ '"' :: rest))
                  = (psbF (f + cs.length + 1) (escJsonL cs ++ '"' :: rest)).map
                      (fun p => ('\t' :: p.1, p.2)) from rfl, ih f]
              rfl
            · rw [if_neg h4]
              by_cases h5 : c = '\n'
              · subst h5
                rw [if_pos rfl]
                simp only [List.cons_append, List.nil_append]
                rw [show psbF ((f + cs.length + 1) + 1)
                      ('\\' :: 'n' :: (escJsonL cs ++ '"' :: rest))
                    = (psbF (f + cs.length + 1) (escJsonL cs ++ '"' :: rest)).map
                        (fun p => ('\n' :: p.1, p.2)) from rfl, ih f]
                rfl
              · rw [if_neg h5]
                by_cases h6 : c = Char.ofNat 12
                · subst h6
                  rw [if_pos rfl]
                  simp only [List.cons_append, List.nil_append]
                  rw [show psbF ((f + cs.length + 1) + 1)
                        ('\\' :: 'f' :: (escJsonL cs ++ '"' :: rest))
                      = (psbF (f + cs.length + 1) (escJsonL cs
                          ++ '"' :: rest)).map
                          (fun p => (Char.ofNat 12 :: p.1, p.2)) from rfl, ih f]
                  rfl
                · rw [if_neg h6]
                  by_cases h7 : c = '\r'
                  · subst h7
                    rw [if_pos rfl]
                    simp only [List.cons_append, List.nil_append]
                    rw [show psbF ((f + cs.length + 1) + 1)
                          ('\\' :: 'r' :: (escJsonL cs ++ '"' :: rest))
                        = (psbF (f + cs.length + 1) (escJsonL cs
                            ++ '"' :: rest)).map
                            (fun p => ('\r' :: p.1, p.2)) from rfl, ih f]
                    rfl
                  · rw [if_neg h7]
                    by_cases h8 : c.toNat < 0x20
                    · rw [if_pos h8]
                      simp only [List.cons_append, List.nil_append]
                      rw [show psbF ((f + cs.length + 1) + 1)
                            ('\\' :: 'u' :: '0' :: '0'
                              :: hexDigit (c.toNat / 16)
                              :: hexDigit (c.toNat % 16)
                              :: (escJsonL cs ++ '"' :: rest))
                          = (match hexVal '0', hexVal '0',
                              hexVal (hexDigit (c.toNat / 16)),
                              hexVal (hexDigit (c.toNat % 16)) with
                            | some a, some b, some cc, some d =>
                                if 0xD800 ≤ a * 4096 + b * 256 + cc * 16 + d
                                    ∧ a * 4096 + b * 256 + cc * 16 + d
                                      ≤ 0xDFFF then
                                  (psbF (f + cs.length + 1) (escJsonL cs
                                    ++ '"' :: rest)).map
                                    (fun p => (replChar :: p.1, p.2))
                                else
                                  (psbF (f + cs.length + 1) (escJsonL cs
                                    ++ '"' :: rest)).map (fun p =>
                                    (Char.ofNat (a * 4096 + b * 256 + cc * 16
                                      + d) :: p.1, p.2))
                            | _, _, _, _ => none) from rfl]
                      rw [hexVal_hexDigit (show c.toNat / 16 < 16 by omega),
                        hexVal_hexDigit (show c.toNat % 16 < 16 by omega),
                        show hexVal '0' = some 0 from by decide]
                      try dsimp only
                      rw [if_neg (by
                        show ¬(55296 ≤ 0 * 4096 + 0 * 256 + c.toNat / 16 * 16
                          + c.toNat % 16 ∧ _)
                        omega)]
                      rw [ih f]
                      rw [show 0 * 4096 + 0 * 256 + c.toNat / 16 * 16
                          + c.toNat % 16 = c.toNat from by omega, hofn]
                      rfl
                    · rw [if_neg h8]
                      simp only [List.cons_append, List.nil_append]
                      rw [show psbF ((f + cs.length + 1) + 1)
                            (c :: (escJsonL cs ++ '"' :: rest))
                          = if c = '"' then some ([], escJsonL cs ++ '"' :: rest)
                            else if c = '\\' then
                              (match escJsonL cs ++ '"' :: rest with
                              | 'n' :: r => (psbF (f + cs.length + 1) r).map
                                  (fun p => ('\n' :: p.1, p.2))
                              | 't' :: r => (psbF (f + cs.length + 1) r).map
                                  (fun p => ('\t' :: p.1, p.2))
                              | 'r' :: r => (psbF (f + cs.length + 1) r).map
                                  (fun p => ('\r' :: p.1, p.2))
                              | 'b' :: r => (psbF (f + cs.length + 1) r).map
                                  (fun p => (Char.ofNat 8 :: p.1, p.2))
                              | 'f' :: r => (psbF (f + cs.length + 1) r).map
                                  (fun p => (Char.ofNat 12 :: p.1, p.2))
                              | '"' :: r => (psbF (f + cs.length + 1) r).map
                                  (fun p => ('"' :: p.1, p.2))
                              | '\\' :: r => (psbF (f + cs.length + 1) r).map
                                  (fun p => ('\\' :: p.1, p.2))
                              | '/' :: r => (psbF (f + cs.length + 1) r).map
                                  (fun p => ('/' :: p.1, p.2))
                              | 'u' :: h1 :: h2 :: h3 :: h4 :: r =>
                                  (match hexVal h1, hexVal h2, hexVal h3,
                                    hexVal h4 with
                                  | some a, some b, some cc, some d =>
                                      if 0xD800 ≤ a * 4096 + b * 256 + cc * 16
                                          + d
                                          ∧ a * 4096 + b * 256 + cc * 16 + d
                                            ≤ 0xDFFF then
                                        (psbF (f + cs.length + 1) r).map
                                          (fun p => (replChar :: p.1, p.2))
                                      else (psbF (f + cs.length + 1) r).map
                                        (fun p => (Char.ofNat (a * 4096
                                          + b * 256 + cc * 16 + d)
                                          :: p.1, p.2))
                                  | _, _, _, _ => none)
                              | _ => none)
                            else if c.toNat < 0x20 then none
                            else (psbF (f + cs.length + 1) (escJsonL cs
                              ++ '"' :: rest)).map
                              (fun p => (c :: p.1, p.2)) from rfl]
                      rw [if_neg h1, if_neg h2, if_neg h8, ih f]
                      rfl

theorem escJsonChar_ne_nil (c : Char) : escJsonChar c ≠ [] := by
  unfold escJsonChar
  split_ifs <;> simp

theorem escJsonL_len_ge (s : List Char) : s.length ≤ (escJsonL s).length := by
  induction s with
  | nil => simp [escJsonL]
  | cons c cs ih =>
      have h := escJsonChar_ne_nil c
      have : 1 ≤ (escJsonChar c).length := by
        cases hE : escJsonChar c with
        | nil => exact absurd hE h
        | cons a as => simp
      simp only [escJsonL, List.length_append, List.length_cons]
      omega

/-- Round trip: the body parse inverts `JSON.stringify` escaping. -/
theorem parseStrBody_esc (s rest : List Char) :
    parseStrBody (escJsonL s ++ '"' :: rest) = some (s, rest) := by
  have hlen := escJsonL_len_ge s
  unfold parseStrBody
  obtain ⟨f, hf⟩ : ∃ f,
      (escJsonL s ++ '"' :: rest).length + 1 = f + s.length + 1 := by
    refine ⟨(escJsonL s).length - s.length + 1 + rest.length, ?_⟩
    simp only [List.length_append, List.length_cons]
    omega
  rw [hf, psbF_esc]

/-! ## JSON numbers (RFC 8259 grammar, exact rational value) -/

def jsonNumVal (neg : Bool) (ip : ℕ) (fs : List Char) (ex : ℤ) : ℚ :=
  let base : ℚ := ip + (charsToNat fs : ℚ) / 10 ^ fs.length
  let v := applyExp base ex
  if neg then -v else v

def jsonExpTail (neg : Bool) (ip : ℕ) (fs : List Char) (r1 : List Char) :
    Option (ℚ × List Char) :=
  match r1 with
  | '+' :: r2 =>
      if (r2.takeWhile Char.isDigit).isEmpty then none
      else some (jsonNumVal neg ip fs (charsToNat (r2.takeWhile Char.isDigit)),
        r2.dropWhile Char.isDigit)
  | '-' :: r2 =>
      if (r2.takeWhile Char.isDigit).isEmpty then none
      else some (jsonNumVal neg ip fs
        (-(charsToNat (r2.takeWhile Char.isDigit) : ℤ)),
        r2.dropWhile Char.isDigit)
  | r2 =>
      if (r2.takeWhile Char.isDigit).isEmpty then none
      else some (jsonNumVal neg ip fs (charsToNat (r2.takeWhile Char.isDigit)),
        r2.dropWhile Char.isDigit)

def jsonExpPart (neg : Bool) (ip : ℕ) (fs : List Char) (r : List Char) :
    Option (ℚ × List Char) :=
  match r with
  | 'e' :: r1 => jsonExpTail neg ip fs r1
  | 'E' :: r1 => jsonExpTail neg ip fs r1
  | _ => some (jsonNumVal neg ip fs 0, r)

def parseJsonNumCore (neg : Bool) (cs1 : List Char) : Option (ℚ × List Char) :=
  let ds := cs1.takeWhile Char.isDigit
  let r1 := cs1.dropWhile Char.isDigit
  if ds.isEmpty then none
  else if ds.head? = some '0' ∧ ds.length ≠ 1 then none
  else
    match r1 with
    | '.' :: r2 =>
        if (r2.takeWhile Char.isDigit).isEmpty then none
        else jsonExpPart neg (charsToNat ds) (r2.takeWhile Char.isDigit)
          (r2.dropWhile Char.isDigit)
    | _ => jsonExpPart neg (charsToNat ds) [] r1

def parseJsonNum (cs : List Char) : Option (ℚ × List Char) :=
  match cs with
  | '-' :: r => parseJsonNumCore true r
  | r => parseJsonNumCore false r

/-! ## JSON values (`JSON.parse`) -/

def isJsonWs (c : Char) : Bool :=
  c == ' ' || c == '\t' || c == '\n' || c == '\r'

def skipWs (cs : List Char) : List Char := cs.dropWhile isJsonWs

mutual

/-- Fuel-indexed JSON value: each recursive call consumes at least one
input character first, so `length + 1` fuel always suffices. -/
def parseJVal : ℕ → List Char → Option (RVal × List Char)
  | 0, _ => none
  | fuel + 1, cs =>
    match skipWs cs with
    | [] => none
    | c :: r =>
      if c = '"' then (parseStrBody r).map (fun p => (RVal.rstr ⟨p.1⟩, p.2))
      else if c = lbrace then
        (match skipWs r with
        | c2 :: r2 =>
            if c2 = rbrace then some (RVal.robj [], r2)
            else parseMembers fuel (c2 :: r2) []
        | [] => none)
      else if c = '[' then
        (match skipWs r with
        | c2 :: r2 =>
            if c2 = ']' then some (RVal.rarr [], r2)
            else parseElems fuel (c2 :: r2) []
        | [] => none)
      else if c = 't' then
        (match r with
        | 'r' :: 'u' :: 'e' :: r2 => some (RVal.rbool true, r2)
        | _ => none)
      else if c = 'f' then
        (match r with
        | 'a' :: 'l' :: 's' :: 'e' :: r2 => some (RVal.rbool false, r2)
        | _ => none)
      else if c = 'n' then
        (match r with
        | 'u' :: 'l' :: 'l' :: r2 => some (RVal.rnull, r2)
        | _ => none)
      else if c = '-' ∨ c.isDigit then
        (parseJsonNum (c :: r)).map (fun p => (RVal.rnum (.num p.1), p.2))
      else none

/-- Members of an object after the opening brace (the input must start at
the first key's quote). -/
def parseMembers : ℕ → List Char → List (String × RVal) →
    Option (RVal × List Char)
  | 0, _, _ => none
  | fuel + 1, cs, acc =>
    match cs with
    | '"' :: r =>
        (match parseStrBody r with
        | some (k, r1) =>
            (match skipWs r1 with
            | ':' :: r2 =>
                (match parseJVal fuel r2 with
                | some (v, r3) =>
                    (match skipWs r3 with
                    | ',' :: r4 => parseMembers fuel (skipWs r4)
                        (acc ++ [(⟨k⟩, v)])
                    | cb :: r4 =>
                        if cb = rbrace then
                          some (RVal.robj (acc ++ [(⟨k⟩, v)]), r4)
                        else none
                    | [] => none)
                | none => none)
            | _ => none)
        | none => none)
    | _ => none

def parseElems : ℕ → List Char → List RVal → Option (RVal × List Char)
  | 0, _, _ => none
  | fuel + 1, cs, acc =>
      match parseJVal fuel cs with
      | some (v, r1) =>
          (match skipWs r1 with
          | ',' :: r2 => parseElems fuel r2 (acc ++ [v])
          | ']' :: r2 => some (RVal.rarr (acc ++ [v]), r2)
          | _ => none)
      | none => none

end

/-- `JSON.parse`: parse one value and require only whitespace after it. -/
def jsonParse (s : String) : Option RVal :=
  match parseJVal (s.length + 1) s.data with
  | some (v, rest) => if skipWs rest = [] then some v else none
  | none => none

/-- `String.prototype.toUpperCase` restricted to the ASCII mapping of
`Char.toUpper` (kernel-evaluable, unlike the iterator-based
`String.toUpper`). -/
def jsToUpper (s : String) : String := ⟨s.data.map Char.toUpper⟩

/-! ## Substring tests (`String.prototype.includes` / `startsWith`) -/

def startsWithL : List Char → List Char → Bool
  | _, [] => true
  | [], _ :: _ => false
  | c :: cs, d :: ds => c == d && startsWithL cs ds

def includesL : List Char → List Char → Bool
  | [], needle => needle.isEmpty
  | c :: cs, needle => startsWithL (c :: cs) needle || includesL cs needle

def jsIncludes (s sub : String) : Bool := includesL s.data sub.data

def jsStartsWith (s p : String) : Bool := startsWithL s.data p.data

/-! ## The pipeline data model -/

/-- A raw relay message (the fields the extractor reads). -/
structure Message where
  payload : String
  contentTopic : String
  timestamp : Option String
deriving Repr

/-- The offer object built by `SwapOffers` (the two JSX icon fields and
`originalData`, pure render data derived from fields already present, are
not modelled). -/
structure ExtractedOffer where
  key : String
  fromAsset : String
  fromAmount : RVal
  toAsset : String
  toAmount : RVal
  timestamp : Option String
  rate : String
  rawMessage : String
  isDebugMode : Bool
  isValidJSON : Bool
  isMyOffer : Bool
deriving Repr

/-- The classifier of src/App.tsx lines 773-791. -/
def isMyOffer (payloadText username : String) : Bool :=
  jsIncludes payloadText ("\"" ++ username ++ "\"") ||
  jsIncludes payloadText ("\"" ++ username ++ "\":") ||
  jsStartsWith payloadText (username ++ ":") ||
  (jsIncludes payloadText "\"fromAsset\"" &&
   jsIncludes payloadText "\"fromAmount\"" &&
   jsIncludes payloadText "\"toAsset\"" &&
   jsIncludes payloadText "\"toAmount\"" &&
   jsIncludes payloadText "\"timestamp\"" &&
   !jsIncludes payloadText "\"offer\"" &&
   !jsIncludes payloadText "\"id\"" &&
   !jsIncludes payloadText "\"type\"" &&
   !jsIncludes payloadText "\"maker\"" &&
   !jsIncludes payloadText "\"clientId\"")

/-! ## Normal-mode extraction (src/App.tsx lines 934-1001) -/

/-- The three-shape field extraction of lines 945-965 (nested-offer shape,
from/to shape, flat shape, in that order). -/
def extractShapes (offer : RVal) : Except Unit (RVal × RVal × RVal × RVal) := do
  let off ← offer.get "offer"
  if off.truthy then
    let fa0 ← off.get "fromAsset"
    let fromAsset ←
      if fa0.isObjType then do
        let sym ← fa0.get "symbol"
        pure (if sym.truthy then sym else fa0)
      else pure fa0
    let ta0 ← off.get "toAsset"
    let toAsset ←
      if ta0.isObjType then do
        let sym ← ta0.get "symbol"
        pure (if sym.truthy then sym else ta0)
      else pure ta0
    let fromAmount ← off.get "fromAmount"
    let toAmount ← off.get "toAmount"
    pure (fromAsset, toAsset, fromAmount, toAmount)
  else
    let f ← offer.get "from"
    let t ← offer.get "to"
    if f.truthy && t.truthy then do
      let fa ← f.get "asset"
      let ta ← t.get "asset"
      let fam ← f.get "amount"
      let tam ← t.get "amount"
      pure (fa, ta, fam, tam)
    else do
      let fa ← offer.get "fromAsset"
      let ta ← offer.get "toAsset"
      let fam ← offer.get "fromAmount"
      let tam ← offer.get "toAmount"
      pure (fa, ta, fam, tam)

/-- The exclusion test of line 967:
`!fromAsset || !toAsset || (!fromAmount && fromAmount !== 0) ||
(!toAmount && toAmount !== 0)`. -/
def missingGuard (fa ta fam tam : RVal) : Bool :=
  !fa.truthy || !ta.truthy || (!fam.truthy && !fam.isZero)
    || (!tam.truthy && !tam.isZero)

def extractNormal (payloadText : String) (mine : Bool) (key : String)
    (ts : Option String) : Except Unit (Option ExtractedOffer) := do
  match jsonParse payloadText with
  | none => pure none
  | some offer => do
      let r ← extractShapes offer
      let (fromAsset, toAsset, fromAmount, toAmount) := r
      if missingGuard fromAsset toAsset fromAmount toAmount then
        pure none
      else do
        let numFrom ← coerceNumE fromAmount
        let numTo ← coerceNumE toAmount
        let faStr ← fromAsset.toStrE
        let taStr ← toAsset.toStrE
        pure (some {
          key := key
          fromAsset := jsToUpper faStr
          fromAmount := RVal.rnum numFrom
          toAsset := jsToUpper taStr
          toAmount := RVal.rnum numTo
          timestamp := ts
          rate := if numFrom.gtQ 0 then (numTo.div numFrom).toFixed 4 else "0"
          rawMessage := payloadText
          isDebugMode := false
          isValidJSON := true
          isMyOffer := mine })

/-! ## Debug-mode extraction (src/App.tsx lines 794-931) -/

/-- Debug nested-shape asset update (lines 819-828). -/
def dbgAsset (v : RVal) (cur : String) : Except Unit String := do
  if v.truthy then
    if v.isObjType then do
      let sym ← v.get "symbol"
      if sym.truthy then do
        let s ← sym.toStrE
        pure (jsToUpper s)
      else do
        let s ← v.toStrE
        pure (jsToUpper s)
    else do
      let s ← v.toStrE
      pure (jsToUpper s)
  else pure cur

/-- Debug simple asset update (lines 840-845, 855-859). -/
def dbgAssetSimple (v : RVal) (cur : String) : Except Unit String := do
  if v.truthy then do
    let s ← v.toStrE
    pure (jsToUpper s)
  else pure cur

/-- Debug amount update (`if (x !== undefined && x !== null)
amt = parseFloat(x.toString()) || x`). -/
def dbgAmount (v : RVal) (cur : RVal) : Except Unit RVal :=
  match v with
  | .rundef => pure cur
  | .rnull => pure cur
  | v => numOrE v

/-! ### Debug regex fallback (lines 869-888) -/

def assetAlts : List (List Char) :=
  [String.data "BTC", String.data "ETH", String.data "USDC",
   String.data "VERI", String.data "bitcoin", String.data "ethereum",
   String.data "Bitcoin", String.data "Ethereum"]

/-- Case-insensitive prefix test (ASCII folding as the `i` flag does for
these alternatives). -/
def ciPrefixL : List Char → List Char → Bool
  | [], _ => true
  | _ :: _, [] => false
  | a :: as, b :: bs => (a.toLower == b.toLower) && ciPrefixL as bs

/-- The global match list of
`/(BTC|ETH|USDC|VERI|bitcoin|ethereum|Bitcoin|Ethereum)/gi`: scan left to
right, try the alternatives in their written order at each position,
record the matched input text and continue after it.  Fuel-indexed; each
step consumes at least one character, so `length + 1` suffices. -/
def assetScanF : ℕ → List Char → List String
  | 0, _ => []
  | _ + 1, [] => []
  | fuel + 1, c :: rest =>
      match assetAlts.find? (fun alt => ciPrefixL alt (c :: rest)) with
      | some alt =>
          (⟨(c :: rest).take alt.length⟩ : String)
            :: assetScanF fuel ((c :: rest).drop alt.length)
      | none => assetScanF fuel rest

def assetMatches (cs : List Char) : List String := assetScanF (cs.length + 1) cs

/-- The global match list of `/\d+\.?\d*/g`. -/
def numScanF : ℕ → List Char → List String
  | 0, _ => []
  | _ + 1, [] => []
  | fuel + 1, c :: rest =>
      if c.isDigit then
        match (c :: rest).dropWhile Char.isDigit with
        | '.' :: r2 =>
            (⟨(c :: rest).takeWhile Char.isDigit
                ++ '.' :: r2.takeWhile Char.isDigit⟩ : String)
              :: numScanF fuel (r2.dropWhile Char.isDigit)
        | r1 => (⟨(c :: rest).takeWhile Char.isDigit⟩ : String)
            :: numScanF fuel r1
      else numScanF fuel rest

def numMatches (cs : List Char) : List String := numScanF (cs.length + 1) cs

/-- `parseFloat(s) || s` on a regex match. -/
def numOrStr (s : String) : RVal :=
  let p := parseFloatS s
  if p.truthy then .rnum p else .rstr s

/-- The raw-text fallback of lines 869-888. -/
def regexExtract (text : String) : String × String × RVal × RVal :=
  let pair := match assetMatches text.data with
    | a :: b :: _ => (jsToUpper a, jsToUpper b)
    | [a] => (jsToUpper a, "Unknown")
    | [] => ("Unknown", "Unknown")
  let amts := match numMatches text.data with
    | n0 :: n1 :: _ => (numOrStr n0, numOrStr n1)
    | [n0] => (numOrStr n0, RVal.rstr "?")
    | [] => (RVal.rstr "?", RVal.rstr "?")
  (pair.1, pair.2, amts.1, amts.2)

/-- Debug-mode field extraction over the parse result (lines 806-889). -/
def extractDebug (parsed : Option RVal) (payloadText : String) :
    Except Unit (String × String × RVal × RVal) := do
  match parsed with
  | some pd =>
      if pd.truthy then do
        let off ← pd.get "offer"
        if off.truthy then do
          let fa0 ← off.get "fromAsset"
          let fa ← dbgAsset fa0 "Unknown"
          let ta0 ← off.get "toAsset"
          let ta ← dbgAsset ta0 "Unknown"
          let fam0 ← off.get "fromAmount"
          let fam ← dbgAmount fam0 (RVal.rstr "?")
          let tam0 ← off.get "toAmount"
          let tam ← dbgAmount tam0 (RVal.rstr "?")
          pure (fa, ta, fam, tam)
        else do
          let f ← pd.get "from"
          let t ← pd.get "to"
          if f.truthy && t.truthy then do
            let fa0 ← f.get "asset"
            let fa ← dbgAssetSimple fa0 "Unknown"
            let ta0 ← t.get "asset"
            let ta ← dbgAssetSimple ta0 "Unknown"
            let fam0 ← f.get "amount"
            let fam ← dbgAmount fam0 (RVal.rstr "?")
            let tam0 ← t.get "amount"
            let tam ← dbgAmount tam0 (RVal.rstr "?")
            pure (fa, ta, fam, tam)
          else do
            let fa0 ← pd.get "fromAsset"
            let fa ← dbgAssetSimple fa0 "Unknown"
            let ta0 ← pd.get "toAsset"
            let ta ← dbgAssetSimple ta0 "Unknown"
            let fam0 ← pd.get "fromAmount"
            let fam ← dbgAmount fam0 (RVal.rstr "?")
            let tam0 ← pd.get "toAmount"
            let tam ← dbgAmount tam0 (RVal.rstr "?")
            pure (fa, ta, fam, tam)
      else pure (regexExtract payloadText)
  | none => pure (regexExtract payloadText)

/-! ## Per-message processing and the pass -/

/-- The expression `${msg.timestamp ?? Date.now()}-${index}` (the
wall-clock fallback is the `now` parameter). -/
def keyOf (ts : Option String) (now idx : ℕ) : String :=
  (ts.getD (natDec now)) ++ "-" ++ natDec idx

def tsTruthy : Option String → Bool
  | some s => s != ""
  | none => false

/-- The debug-mode offer construction (lines 794-931). -/
def debugOffer (payloadText : String) (mine : Bool) (key : String)
    (ts : Option String) : Except Unit ExtractedOffer := do
  let parsed := jsonParse payloadText
  let r ← extractDebug parsed payloadText
  let (fa, ta, fam, tam) := r
  let numFrom ← debugCoerceE fam
  let numTo ← debugCoerceE tam
  pure {
    key := key
    fromAsset := fa
    fromAmount := fam
    toAsset := ta
    toAmount := tam
    timestamp := ts
    rate := if numFrom.gtQ 0 && numTo.gtQ 0 then
        (numTo.div numFrom).toFixed 4
      else "N/A"
    rawMessage := payloadText
    isDebugMode := true
    isValidJSON := parsed.isSome
    isMyOffer := mine }

def processMessageE (debugMode : Bool) (username : String) (now idx : ℕ)
    (msg : Message) : Except Unit (Option ExtractedOffer) := do
  let payloadText ← match decodeBase64Utf8 msg.payload with
    | none => throw ()
    | some t => pure t
  let mine := isMyOffer payloadText username
  let key := keyOf msg.timestamp now idx
  if debugMode && tsTruthy msg.timestamp then do
    let o ← debugOffer payloadText mine key msg.timestamp
    pure (some o)
  else if !debugMode then
    extractNormal payloadText mine key msg.timestamp
  else
    pure none

/-- One message of the pass, with the surrounding try/catch: any modelled
exception maps to exclusion. -/
def processMessage (debugMode : Bool) (username : String) (now idx : ℕ)
    (msg : Message) : Option ExtractedOffer :=
  match processMessageE debugMode username now idx msg with
  | .ok r => r
  | .error _ => none

/-- The `map` + `filter(Boolean)` over the topic-filtered message list,
carrying the running index. -/
def swapOffersFrom (debugMode : Bool) (username : String) (now : ℕ) :
    ℕ → List Message → List ExtractedOffer
  | _, [] => []
  | idx, m :: ms =>
      match processMessage debugMode username now idx m with
      | some o => o :: swapOffersFrom debugMode username now (idx + 1) ms
      | none => swapOffersFrom debugMode username now (idx + 1) ms

/-- The whole extraction pass of the `SwapOffers` component: filter the
messages to the community topic, then map-and-filter with the index. -/
def swapOffers (community : Option String) (debugMode : Bool)
    (username : String) (now : ℕ) (messages : List Message) :
    List ExtractedOffer :=
  swapOffersFrom debugMode username now 0
    (messages.filter (fun m =>
      match community with
      | some t => m.contentTopic == t
      | none => false))

/-! ## The sender's flat offer payload (src/App.tsx lines 1461-1476) -/

/-- A JSON numeral in positional notation with value `m / 10 ^ e`
(every finite JavaScript double is of this form). -/
def numLitJson (m : ℤ) (e : ℕ) : List Char :=
  (if m < 0 then ['-'] else []) ++ decPointL m.natAbs e

/-- `JSON.stringify({fromAsset, fromAmount, toAsset, toAmount, timestamp})`
as built by `sendSwapOffer`. -/
def flatOfferJson (t1 : String) (m1 : ℤ) (e1 : ℕ) (t2 : String) (m2 : ℤ)
    (e2 : ℕ) (ts : ℕ) : String :=
  ⟨lbrace :: ((strLitJson "fromAsset").data ++ ':' :: (strLitJson t1).data
    ++ ',' :: (strLitJson "fromAmount").data ++ ':' :: numLitJson m1 e1
    ++ ',' :: (strLitJson "toAsset").data ++ ':' :: (strLitJson t2).data
    ++ ',' :: (strLitJson "toAmount").data ++ ':' :: numLitJson m2 e2
    ++ ',' :: (strLitJson "timestamp").data ++ ':' :: natDecL ts
    ++ [rbrace])⟩

/-! ## The rate calculator (src/components/AssetIcon.tsx lines 59-76) -/

def calculateRate (fromAmount toAmount : JSNum) : String :=
  if !fromAmount.truthy || !toAmount.truthy || !fromAmount.finite
      || !toAmount.finite || fromAmount.leQ 0 then "N/A"
  else
    let rate := toAmount.div fromAmount
    if !rate.finite then "N/A"
    else
      let decimals : ℕ := if rate.geQ 1000 then 2 else if rate.geQ 100 then 3
        else if rate.ltQ (1 / 10000) then 8 else 4
      rate.toFixed decimals

/-! ## Concrete scenario inputs -/

/-- The scenario-A flat payload text. -/
def flatTextA : String :=
  "\x7b\"fromAsset\":\"BTC\",\"fromAmount\":1,\"toAsset\":\"USDC\",\"toAmount\":65000,\"timestamp\":1700000000000\x7d"

def msgScenA : Message :=
  ⟨encodeBase64Utf8 flatTextA, "swap-topic", some "1700000000000000000"⟩

/-- The scenario-B payload: scenario A without `toAmount`. -/
def flatTextB : String :=
  "\x7b\"fromAsset\":\"BTC\",\"fromAmount\":1,\"toAsset\":\"USDC\",\"timestamp\":1700000000000\x7d"

def msgScenB : Message :=
  ⟨encodeBase64Utf8 flatTextB, "swap-topic", some "1700000000000000000"⟩

/-! ## Claims -/

/-- Claim C1, counterexample: on the scenario-A message the extraction
pass does not produce the claimed pair of rate `"65000.00"` and
`isMyOffer = false` (the code computes rate with `toFixed(4)` and the
structural own-schema rule classifies the payload as mine). -/
theorem claim_C1_counterexample :
    (swapOffers (some "swap-topic") false "alice" 0 [msgScenA]).map
      (fun o => (o.rate, o.isMyOffer)) ≠ [("65000.00", false)] := by
  decide

/-- Claim C1, amended: with debug mode off and handle "alice" not present
in the payload, the pass on the single scenario-A message yields exactly
one offer with fromAsset "BTC", fromAmount 1, toAsset "USDC",
toAmount 65000, rate "65000.0000", and isMyOffer true. -/
theorem claim_C1_amended :
    (swapOffers (some "swap-topic") false "alice" 0 [msgScenA]).map
      (fun o => (o.fromAsset, o.toAsset, o.rate, o.isMyOffer, o.isValidJSON))
      = [("BTC", "USDC", "65000.0000", true, true)]
    ∧ (swapOffers (some "swap-topic") false "alice" 0 [msgScenA]).map
      (fun o => o.fromAmount) = [RVal.rnum (.num 1)]
    ∧ (swapOffers (some "swap-topic") false "alice" 0 [msgScenA]).map
      (fun o => o.toAmount) = [RVal.rnum (.num 65000)] := by
  refine ⟨by decide, by rfl, by rfl⟩

/-- Claim C3: `calculateRate` returns "N/A" when either amount is
missing (falsy) or non-finite, or `fromAmount ≤ 0`, or the quotient is
non-finite; otherwise it returns the quotient formatted as a fixed-decimal
string with 2 decimals for rate ≥ 1000, 3 for rate ≥ 100, 8 for
rate < 0.0001 and 4 otherwise; in particular `calculateRate 0 100` and
`calculateRate 100 0` are both "N/A". -/
theorem claim_C3 :
    (∀ f t : JSNum,
      calculateRate f t =
        if !f.truthy || !t.truthy || !f.finite || !t.finite || f.leQ 0
            || !(t.div f).finite then "N/A"
        else (t.div f).toFixed
          (if (t.div f).geQ 1000 then 2
           else if (t.div f).geQ 100 then 3
           else if (t.div f).ltQ (1 / 10000) then 8
           else 4))
    ∧ calculateRate (.num 0) (.num 100) = "N/A"
    ∧ calculateRate (.num 100) (.num 0) = "N/A" := by
  refine ⟨?_, by decide, by decide⟩
  intro f t
  unfold calculateRate
  cases f with
  | nan => simp [JSNum.truthy]
  | inf => simp [JSNum.finite, JSNum.truthy]
  | neginf => simp [JSNum.finite, JSNum.truthy]
  | num qf =>
      cases t with
      | nan => simp [JSNum.truthy]
      | inf => simp [JSNum.finite, JSNum.truthy]
      | neginf => simp [JSNum.finite, JSNum.truthy]
      | num qt =>
          by_cases h0 : qf = 0
          · subst h0
            simp [JSNum.truthy]
          · by_cases hle : qf ≤ 0
            · simp [JSNum.truthy, JSNum.finite, JSNum.leQ, h0, hle]
            · by_cases ht0 : qt = 0
              · subst ht0
                simp [JSNum.truthy]
              · simp [JSNum.truthy, JSNum.finite, JSNum.leQ, JSNum.div,
                  h0, hle, ht0]

/-- Claim C5 (classifier monotonicity): for a fixed handle, any decoded
payload that contains the handle wrapped in double quotes, or contains
the quoted handle followed by a colon, or starts with `handle:`, is
classified `isMyOffer = true` regardless of the structural-shape rule. -/
theorem claim_C5 (text handle : String)
    (h : jsIncludes text ("\"" ++ handle ++ "\"") = true
      ∨ jsIncludes text ("\"" ++ handle ++ "\":") = true
      ∨ jsStartsWith text (handle ++ ":") = true) :
    isMyOffer text handle = true := by
  unfold isMyOffer
  rcases h with h | h | h <;> simp [h]

/-- Witness for C5 at a concrete payload and handle. -/
theorem claim_C5_witness :
    (jsIncludes "\"alice\" offers tea" "\"alice\"" = true
      ∨ jsIncludes "\"alice\" offers tea" "\"alice\":" = true
      ∨ jsStartsWith "\"alice\" offers tea" "alice:" = true)
    ∧ isMyOffer "\"alice\" offers tea" "alice" = true :=
  ⟨Or.inl (by decide),
   claim_C5 "\"alice\" offers tea" "alice" (Or.inl (by decide))⟩

theorem processMessage_eq_normal (username : String) (now idx : ℕ)
    (msg : Message) (text : String)
    (hdec : decodeBase64Utf8 msg.payload = some text) :
    processMessage false username now idx msg
      = match extractNormal text (isMyOffer text username)
          (keyOf msg.timestamp now idx) msg.timestamp with
        | .ok r => r
        | .error _ => none := by
  unfold processMessage processMessageE
  rw [hdec]
  simp [Bind.bind, Except.bind, Pure.pure, Except.pure]

theorem processMessage_eq_debug (username : String) (now idx : ℕ)
    (msg : Message) (text ts : String)
    (hdec : decodeBase64Utf8 msg.payload = some text)
    (hts : msg.timestamp = some ts) (hne : ts ≠ "") :
    processMessage true username now idx msg
      = match debugOffer text (isMyOffer text username)
          (keyOf msg.timestamp now idx) msg.timestamp with
        | .ok o => some o
        | .error _ => none := by
  unfold processMessage processMessageE
  rw [hdec, hts]
  have htt : tsTruthy (some ts) = true := by simp [tsTruthy, hne]
  simp [Bind.bind, Except.bind, Pure.pure, Except.pure, htt, hts]
  cases debugOffer text (isMyOffer text username)
    (keyOf (some ts) now idx) (some ts) <;> simp

/-- The scenario of a message whose decoded text is not JSON. -/
def msgNonJson : Message := ⟨encodeBase64Utf8 "hello world", "t", some "1"⟩

/-- A flat payload whose `fromAsset` is the empty string (falsy). -/
def flatTextEmptyAsset : String :=
  "\x7b\"fromAsset\":\"\",\"fromAmount\":1,\"toAsset\":\"USDC\",\"toAmount\":2\x7d"

def msgEmptyAsset : Message := ⟨encodeBase64Utf8 flatTextEmptyAsset, "t", some "1"⟩

/-- Claim C4 (normal-mode exclusion): with debug off, a message whose
decoded payload is not valid JSON produces no offer; a valid-JSON message
whose three-shape extraction leaves `fromAsset` or `toAsset` falsy, or an
amount falsy other than the number 0, produces no offer; in particular
the scenario-B message (scenario A without `toAmount`) is excluded. -/
theorem claim_C4 :
    (∀ (username : String) (now idx : ℕ) (msg : Message) (text : String),
      decodeBase64Utf8 msg.payload = some text →
      jsonParse text = none →
      processMessage false username now idx msg = none)
    ∧ (∀ (username : String) (now idx : ℕ) (msg : Message) (text : String)
        (offer fa ta fam tam : RVal),
      decodeBase64Utf8 msg.payload = some text →
      jsonParse text = some offer →
      extractShapes offer = .ok (fa, ta, fam, tam) →
      missingGuard fa ta fam tam = true →
      processMessage false username now idx msg = none)
    ∧ processMessage false "alice" 0 0 msgScenB = none := by
  refine ⟨?_, ?_, by rfl⟩
  · intro username now idx msg text hdec hjson
    rw [processMessage_eq_normal username now idx msg text hdec]
    unfold extractNormal
    rw [hjson]
    simp [Pure.pure, Except.pure]
  · intro username now idx msg text offer fa ta fam tam hdec hjson hx hg
    rw [processMessage_eq_normal username now idx msg text hdec]
    unfold extractNormal
    rw [hjson]
    simp [Bind.bind, Except.bind, Pure.pure, Except.pure, hx, hg]

/-- Witness for C4: a non-JSON payload and an empty-`fromAsset` payload,
both excluded. -/
theorem claim_C4_witness :
    processMessage false "alice" 0 0 msgNonJson = none
    ∧ processMessage false "alice" 0 0 msgEmptyAsset = none :=
  ⟨claim_C4.1 "alice" 0 0 msgNonJson "hello world" (by rfl) (by rfl),
   claim_C4.2.1 "alice" 0 0 msgEmptyAsset flatTextEmptyAsset
     (RVal.robj [("fromAsset", RVal.rstr ""),
       ("fromAmount", RVal.rnum (.num 1)),
       ("toAsset", RVal.rstr "USDC"),
       ("toAmount", RVal.rnum (.num 2))])
     (RVal.rstr "") (RVal.rstr "USDC") (RVal.rnum (.num 1))
     (RVal.rnum (.num 2))
     (by rfl) (by rfl) (by rfl) (by decide)⟩

/-! ## Debug-mode totality lemmas -/

/-- Not undefined and not null (the values `.toString()` accepts). -/
def notNU (v : RVal) : Prop := v ≠ .rundef ∧ v ≠ .rnull

theorem truthy_notNU (v : RVal) (h : v.truthy = true) : notNU v := by
  cases v with
  | rundef => simp [RVal.truthy] at h
  | rnull => simp [RVal.truthy] at h
  | rbool b => exact ⟨by simp, by simp⟩
  | rnum x => exact ⟨by simp, by simp⟩
  | rstr s => exact ⟨by simp, by simp⟩
  | rarr xs => exact ⟨by simp, by simp⟩
  | robj fs => exact ⟨by simp, by simp⟩

theorem toStrE_ok_of_notNU (v : RVal) (h : notNU v) :
    ∃ s, RVal.toStrE v = .ok s := by
  cases v with
  | rundef => exact absurd rfl h.1
  | rnull => exact absurd rfl h.2
  | rbool b => exact ⟨_, rfl⟩
  | rnum x => exact ⟨_, rfl⟩
  | rstr s => exact ⟨_, rfl⟩
  | rarr xs => exact ⟨_, rfl⟩
  | robj fs => exact ⟨_, rfl⟩

theorem get_ok_of_notNU (v : RVal) (h : notNU v) (k : String) :
    ∃ w, RVal.get v k = .ok w := by
  cases v with
  | rundef => exact absurd rfl h.1
  | rnull => exact absurd rfl h.2
  | rbool b => exact ⟨_, rfl⟩
  | rnum x => exact ⟨_, rfl⟩
  | rstr s => exact ⟨_, rfl⟩
  | rarr xs => exact ⟨_, rfl⟩
  | robj fs => exact ⟨_, rfl⟩

theorem numOrE_ok (v : RVal) (h : notNU v) :
    ∃ w, numOrE v = .ok w ∧ notNU w := by
  cases v with
  | rundef => exact absurd rfl h.1
  | rnull => exact absurd rfl h.2
  | rnum x =>
      refine ⟨_, rfl, ?_⟩
      dsimp only
      split <;> exact ⟨by simp, by simp⟩
  | rbool b =>
      refine ⟨_, rfl, ?_⟩
      dsimp only
      split <;> exact ⟨by simp, by simp⟩
  | rstr s =>
      refine ⟨_, rfl, ?_⟩
      dsimp only
      split <;> exact ⟨by simp, by simp⟩
  | rarr xs =>
      refine ⟨_, rfl, ?_⟩
      dsimp only
      split <;> exact ⟨by simp, by simp⟩
  | robj fs =>
      refine ⟨_, rfl, ?_⟩
      dsimp only
      split <;> exact ⟨by simp, by simp⟩

theorem dbgAmount_ok (v cur : RVal) (hcur : notNU cur) :
    ∃ w, dbgAmount v cur = .ok w ∧ notNU w := by
  cases v with
  | rundef => exact ⟨cur, rfl, hcur⟩
  | rnull => exact ⟨cur, rfl, hcur⟩
  | rbool b => exact numOrE_ok (RVal.rbool b) ⟨by simp, by simp⟩
  | rnum x => exact numOrE_ok (RVal.rnum x) ⟨by simp, by simp⟩
  | rstr s => exact numOrE_ok (RVal.rstr s) ⟨by simp, by simp⟩
  | rarr xs => exact numOrE_ok (RVal.rarr xs) ⟨by simp, by simp⟩
  | robj fs => exact numOrE_ok (RVal.robj fs) ⟨by simp, by simp⟩

theorem debugCoerceE_ok (v : RVal) (h : notNU v) :
    ∃ x, debugCoerceE v = .ok x := by
  cases v with
  | rundef => exact absurd rfl h.1
  | rnull => exact absurd rfl h.2
  | rbool b => exact ⟨_, rfl⟩
  | rnum x => exact ⟨_, rfl⟩
  | rstr s => exact ⟨_, rfl⟩
  | rarr xs => exact ⟨_, rfl⟩
  | robj fs => exact ⟨_, rfl⟩

theorem dbgAssetSimple_ok (v : RVal) (cur : String) :
    ∃ s, dbgAssetSimple v cur = .ok s := by
  unfold dbgAssetSimple
  by_cases ht : v.truthy = true
  · rw [if_pos ht]
    obtain ⟨s, hs⟩ := toStrE_ok_of_notNU v (truthy_notNU v ht)
    rw [hs]
    exact ⟨_, rfl⟩
  · rw [if_neg ht]
    exact ⟨cur, rfl⟩

theorem dbgAsset_ok (v : RVal) (cur : String) :
    ∃ s, dbgAsset v cur = .ok s := by
  unfold dbgAsset
  by_cases ht : v.truthy = true
  · rw [if_pos ht]
    by_cases hobj : v.isObjType = true
    · rw [if_pos hobj]
      cases v with
      | rundef => simp [RVal.truthy] at ht
      | rnull => simp [RVal.truthy] at ht
      | rbool b => simp [RVal.isObjType] at hobj
      | rnum x => simp [RVal.isObjType] at hobj
      | rstr s => simp [RVal.isObjType] at hobj
      | rarr xs =>
          simp only [RVal.get, Bind.bind, Except.bind, Pure.pure, Except.pure]
          exact ⟨_, rfl⟩
      | robj fs =>
          simp only [RVal.get, Bind.bind, Except.bind, Pure.pure, Except.pure]
          by_cases hsym : ((objLookup fs "symbol").getD .rundef).truthy = true
          · rw [if_pos hsym]
            obtain ⟨s, hs⟩ := toStrE_ok_of_notNU _ (truthy_notNU _ hsym)
            rw [hs]
            exact ⟨_, rfl⟩
          · rw [if_neg hsym]
            exact ⟨_, rfl⟩
    · rw [if_neg hobj]
      obtain ⟨s, hs⟩ := toStrE_ok_of_notNU v (truthy_notNU v ht)
      rw [hs]
      exact ⟨_, rfl⟩
  · rw [if_neg ht]
    exact ⟨cur, rfl⟩

theorem numOrStr_notNU (s : String) : notNU (numOrStr s) := by
  unfold numOrStr
  dsimp only
  split <;> exact ⟨by simp, by simp⟩

theorem regexExtract_notNU (text : String) :
    notNU (regexExtract text).2.2.1 ∧ notNU (regexExtract text).2.2.2 := by
  unfold regexExtract
  rcases numMatches text.data with _ | ⟨n0, _ | ⟨n1, rest⟩⟩ <;>
    rcases assetMatches text.data with _ | ⟨a, _ | ⟨b, arest⟩⟩ <;>
    exact ⟨by first
        | exact numOrStr_notNU _
        | exact ⟨by simp, by simp⟩,
      by first
        | exact numOrStr_notNU _
        | exact ⟨by simp, by simp⟩⟩

theorem extractDebug_ok (parsed : Option RVal) (text : String) :
    ∃ fa ta fam tam, extractDebug parsed text = .ok (fa, ta, fam, tam)
      ∧ notNU fam ∧ notNU tam := by
  have hq : notNU (RVal.rstr "?") := ⟨by simp, by simp⟩
  cases parsed with
  | none =>
      obtain ⟨h1, h2⟩ := regexExtract_notNU text
      exact ⟨_, _, _, _, rfl, h1, h2⟩
  | some pd =>
      unfold extractDebug
      dsimp only
      by_cases hpd : pd.truthy = true
      · rw [if_pos hpd]
        have hpdn := truthy_notNU pd hpd
        obtain ⟨off, hoff⟩ := get_ok_of_notNU pd hpdn "offer"
        rw [hoff]
        simp only [Bind.bind, Except.bind, Pure.pure, Except.pure]
        by_cases hofft : off.truthy = true
        · rw [if_pos hofft]
          have hoffn := truthy_notNU off hofft
          obtain ⟨fa0, h1⟩ := get_ok_of_notNU off hoffn "fromAsset"
          obtain ⟨fa, h2⟩ := dbgAsset_ok fa0 "Unknown"
          obtain ⟨ta0, h3⟩ := get_ok_of_notNU off hoffn "toAsset"
          obtain ⟨ta, h4⟩ := dbgAsset_ok ta0 "Unknown"
          obtain ⟨fam0, h5⟩ := get_ok_of_notNU off hoffn "fromAmount"
          obtain ⟨fam, h6, h6n⟩ := dbgAmount_ok fam0 _ hq
          obtain ⟨tam0, h7⟩ := get_ok_of_notNU off hoffn "toAmount"
          obtain ⟨tam, h8, h8n⟩ := dbgAmount_ok tam0 _ hq
          rw [h1]
          simp only [Bind.bind, Except.bind, Pure.pure, Except.pure]
          rw [h2]
          simp only [Bind.bind, Except.bind, Pure.pure, Except.pure]
          rw [h3]
          simp only [Bind.bind, Except.bind, Pure.pure, Except.pure]
          rw [h4]
          simp only [Bind.bind, Except.bind, Pure.pure, Except.pure]
          rw [h5]
          simp only [Bind.bind, Except.bind, Pure.pure, Except.pure]
          rw [h6]
          simp only [Bind.bind, Except.bind, Pure.pure, Except.pure]
          rw [h7]
          simp only [Bind.bind, Except.bind, Pure.pure, Except.pure]
          rw [h8]
          exact ⟨fa, ta, fam, tam, rfl, h6n, h8n⟩
        · rw [if_neg hofft]
          obtain ⟨f, hf⟩ := get_ok_of_notNU pd hpdn "from"
          obtain ⟨t, htt⟩ := get_ok_of_notNU pd hpdn "to"
          rw [hf]
          simp only [Bind.bind, Except.bind, Pure.pure, Except.pure]
          rw [htt]
          simp only [Bind.bind, Except.bind, Pure.pure, Except.pure]
          by_cases hft : (f.truthy && t.truthy) = true
          · rw [if_pos hft]
            have hfn := truthy_notNU f (by
              rcases Bool.and_eq_true_iff.mp hft with ⟨hh, _⟩
              exact hh)
            have htn := truthy_notNU t (by
              rcases Bool.and_eq_true_iff.mp hft with ⟨_, hh⟩
              exact hh)
            obtain ⟨fa0, h1⟩ := get_ok_of_notNU f hfn "asset"
            obtain ⟨fa, h2⟩ := dbgAssetSimple_ok fa0 "Unknown"
            obtain ⟨ta0, h3⟩ := get_ok_of_notNU t htn "asset"
            obtain ⟨ta, h4⟩ := dbgAssetSimple_ok ta0 "Unknown"
            obtain ⟨fam0, h5⟩ := get_ok_of_notNU f hfn "amount"
            obtain ⟨fam, h6, h6n⟩ := dbgAmount_ok fam0 _ hq
            obtain ⟨tam0, h7⟩ := get_ok_of_notNU t htn "amount"
            obtain ⟨tam, h8, h8n⟩ := dbgAmount_ok tam0 _ hq
            rw [h1]
            simp only [Bind.bind, Except.bind, Pure.pure, Except.pure]
            rw [h2]
            simp only [Bind.bind, Except.bind, Pure.pure, Except.pure]
            rw [h3]
            simp only [Bind.bind, Except.bind, Pure.pure, Except.pure]
            rw [h4]
            simp only [Bind.bind, Except.bind, Pure.pure, Except.pure]
            rw [h5]
            simp only [Bind.bind, Except.bind, Pure.pure, Except.pure]
            rw [h6]
            simp only [Bind.bind, Except.bind, Pure.pure, Except.pure]
            rw [h7]
            simp only [Bind.bind, Except.bind, Pure.pure, Except.pure]
            rw [h8]
            exact ⟨fa, ta, fam, tam, rfl, h6n, h8n⟩
          · rw [if_neg hft]
            obtain ⟨fa0, h1⟩ := get_ok_of_notNU pd hpdn "fromAsset"
            obtain ⟨fa, h2⟩ := dbgAssetSimple_ok fa0 "Unknown"
            obtain ⟨ta0, h3⟩ := get_ok_of_notNU pd hpdn "toAsset"
            obtain ⟨ta, h4⟩ := dbgAssetSimple_ok ta0 "Unknown"
            obtain ⟨fam0, h5⟩ := get_ok_of_notNU pd hpdn "fromAmount"
            obtain ⟨fam, h6, h6n⟩ := dbgAmount_ok fam0 _ hq
            obtain ⟨tam0, h7⟩ := get_ok_of_notNU pd hpdn "toAmount"
            obtain ⟨tam, h8, h8n⟩ := dbgAmount_ok tam0 _ hq
            rw [h1]
            simp only [Bind.bind, Except.bind, Pure.pure, Except.pure]
            rw [h2]
            simp only [Bind.bind, Except.bind, Pure.pure, Except.pure]
            rw [h3]
            simp only [Bind.bind, Except.bind, Pure.pure, Except.pure]
            rw [h4]
            simp only [Bind.bind, Except.bind, Pure.pure, Except.pure]
            rw [h5]
            simp only [Bind.bind, Except.bind, Pure.pure, Except.pure]
            rw [h6]
            simp only [Bind.bind, Except.bind, Pure.pure, Except.pure]
            rw [h7]
            simp only [Bind.bind, Except.bind, Pure.pure, Except.pure]
            rw [h8]
            exact ⟨fa, ta, fam, tam, rfl, h6n, h8n⟩
      · rw [if_neg hpd]
        obtain ⟨h1, h2⟩ := regexExtract_notNU text
        exact ⟨_, _, _, _, rfl, h1, h2⟩

theorem debugOffer_ok (text : String) (mine : Bool) (key : String)
    (ts : Option String) :
    ∃ o, debugOffer text mine key ts = .ok o ∧ o.isDebugMode = true := by
  unfold debugOffer
  dsimp only
  obtain ⟨fa, ta, fam, tam, hx, hfam, htam⟩ :=
    extractDebug_ok (jsonParse text) text
  rw [hx]
  simp only [Bind.bind, Except.bind, Pure.pure, Except.pure]
  obtain ⟨nf, hnf⟩ := debugCoerceE_ok fam hfam
  rw [hnf]
  simp only [Bind.bind, Except.bind, Pure.pure, Except.pure]
  obtain ⟨nt, hnt⟩ := debugCoerceE_ok tam htam
  rw [hnt]
  exact ⟨_, rfl, rfl⟩

/-- Claim C6 (debug-mode totality): in debug mode, every message whose
payload base64-decodes and whose timestamp is a non-empty string produces
exactly one ExtractedOffer — the debug extractor never excludes a message
for missing or unparseable data. -/
theorem claim_C6 (username : String) (now idx : ℕ) (msg : Message)
    (text ts : String)
    (hdec : decodeBase64Utf8 msg.payload = some text)
    (hts : msg.timestamp = some ts) (hne : ts ≠ "") :
    ∃ o, processMessage true username now idx msg = some o
      ∧ o.isDebugMode = true := by
  rw [processMessage_eq_debug username now idx msg text ts hdec hts hne]
  obtain ⟨o, ho, hdbg⟩ := debugOffer_ok text (isMyOffer text username)
    (keyOf msg.timestamp now idx) msg.timestamp
  rw [ho]
  exact ⟨o, rfl, hdbg⟩

/-- Witness for C6 at a non-JSON message with a timestamp. -/
theorem claim_C6_witness :
    decodeBase64Utf8 msgNonJson.payload = some "hello world"
    ∧ msgNonJson.timestamp = some "1"
    ∧ ("1" : String) ≠ ""
    ∧ ∃ o, processMessage true "alice" 0 0 msgNonJson = some o
        ∧ o.isDebugMode = true :=
  ⟨by rfl, by rfl, by decide,
   claim_C6 "alice" 0 0 msgNonJson "hello world" "1" (by rfl) (by rfl)
     (by decide)⟩

/-! ## Pipeline-level lemmas (no exception escapes; keys) -/

theorem processMessage_decode_fail (debug : Bool) (username : String)
    (now idx : ℕ) (msg : Message) (h : atobS msg.payload = none) :
    processMessage debug username now idx msg = none := by
  unfold processMessage processMessageE decodeBase64Utf8
  rw [h]
  rfl

theorem swapOffersFrom_split (debug : Bool) (username : String) (now : ℕ)
    (bad : Message) (hbad : atobS bad.payload = none) :
    ∀ (pre : List Message) (start : ℕ) (suf : List Message),
    swapOffersFrom debug username now start (pre ++ bad :: suf)
      = swapOffersFrom debug username now start pre
        ++ swapOffersFrom debug username now (start + pre.length + 1) suf := by
  intro pre
  induction pre with
  | nil =>
      intro start suf
      simp only [List.nil_append, List.length_nil, Nat.add_zero]
      rw [show swapOffersFrom debug username now start (bad :: suf)
          = (match processMessage debug username now start bad with
            | some o => o :: swapOffersFrom debug username now (start + 1) suf
            | none => swapOffersFrom debug username now (start + 1) suf)
          from rfl,
        processMessage_decode_fail debug username now start bad hbad]
      rfl
  | cons m pre ih =>
      intro start suf
      simp only [List.cons_append, List.length_cons]
      rw [show swapOffersFrom debug username now start
            (m :: (pre ++ bad :: suf))
          = (match processMessage debug username now start m with
            | some o => o :: swapOffersFrom debug username now (start + 1)
                (pre ++ bad :: suf)
            | none => swapOffersFrom debug username now (start + 1)
                (pre ++ bad :: suf))
          from rfl,
        show swapOffersFrom debug username now start (m :: pre)
          = (match processMessage debug username now start m with
            | some o => o :: swapOffersFrom debug username now (start + 1) pre
            | none => swapOffersFrom debug username now (start + 1) pre)
          from rfl,
        ih (start + 1) suf,
        show start + 1 + pre.length + 1 = start + (pre.length + 1) + 1
          from by omega]
      cases processMessage debug username now start m <;> simp

/-- Claim C9 (pipeline never throws): the per-message body is run under a
catch that maps every modelled exception to exclusion; a message whose
payload fails base64 decoding contributes nothing, and the remaining
messages of the pass are still processed at their positions. -/
theorem claim_C9 :
    (∀ (debug : Bool) (username : String) (now idx : ℕ) (msg : Message),
      atobS msg.payload = none →
      processMessage debug username now idx msg = none)
    ∧ (∀ (debug : Bool) (username : String) (now idx : ℕ) (msg : Message),
      processMessageE debug username now idx msg = .error () →
      processMessage debug username now idx msg = none)
    ∧ (∀ (debug : Bool) (username : String) (now start : ℕ)
        (pre : List Message) (bad : Message) (suf : List Message),
      atobS bad.payload = none →
      swapOffersFrom debug username now start (pre ++ bad :: suf)
        = swapOffersFrom debug username now start pre
          ++ swapOffersFrom debug username now (start + pre.length + 1) suf) := by
  refine ⟨processMessage_decode_fail, ?_, ?_⟩
  · intro debug username now idx msg h
    unfold processMessage
    rw [h]
  · intro debug username now start pre bad suf h
    exact swapOffersFrom_split debug username now bad h pre start suf

/-- Witness for C9 at a malformed-base64 message inside a pass. -/
theorem claim_C9_witness :
    atobS "!!!" = none
    ∧ processMessage false "alice" 0 0 (⟨"!!!", "t", some "1"⟩ : Message) = none
    ∧ swapOffersFrom false "alice" 0 0
        ([msgScenA] ++ (⟨"!!!", "t", some "1"⟩ : Message) :: [msgScenA])
      = swapOffersFrom false "alice" 0 0 [msgScenA]
        ++ swapOffersFrom false "alice" 0 (0 + [msgScenA].length + 1)
            [msgScenA] :=
  ⟨by decide,
   claim_C9.1 false "alice" 0 0 (⟨"!!!", "t", some "1"⟩ : Message) (by decide),
   claim_C9.2.2 false "alice" 0 0 [msgScenA] (⟨"!!!", "t", some "1"⟩ : Message)
     [msgScenA] (by decide)⟩

/-! ## Key uniqueness -/

theorem extractNormal_key (text : String) (mine : Bool) (key : String)
    (ts : Option String) (o : ExtractedOffer)
    (h : extractNormal text mine key ts = .ok (some o)) : o.key = key := by
  unfold extractNormal at h
  cases hp : jsonParse text with
  | none =>
      rw [hp] at h
      simp [Pure.pure, Except.pure] at h
  | some offer =>
      rw [hp] at h
      dsimp only at h
      cases hx : extractShapes offer with
      | error e =>
          rw [hx] at h
          simp [Bind.bind, Except.bind] at h
      | ok r =>
          obtain ⟨fa, ta, fam, tam⟩ := r
          rw [hx] at h
          simp only [Bind.bind, Except.bind, Pure.pure, Except.pure] at h
          by_cases hg : missingGuard fa ta fam tam = true
          · rw [if_pos hg] at h
            simp at h
          · rw [if_neg hg] at h
            cases hnf : coerceNumE fam with
            | error e => rw [hnf] at h; simp at h
            | ok nf =>
                rw [hnf] at h
                cases hnt : coerceNumE tam with
                | error e => rw [hnt] at h; simp at h
                | ok nt =>
                    rw [hnt] at h
                    cases hfa : fa.toStrE with
                    | error e => rw [hfa] at h; simp at h
                    | ok faStr =>
                        rw [hfa] at h
                        cases hta : ta.toStrE with
                        | error e => rw [hta] at h; simp at h
                        | ok taStr =>
                            rw [hta] at h
                            simp only [Except.ok.injEq, Option.some.injEq] at h
                            rw [← h]

theorem debugOffer_key (text : String) (mine : Bool) (key : String)
    (ts : Option String) (o : ExtractedOffer)
    (h : debugOffer text mine key ts = .ok o) : o.key = key := by
  unfold debugOffer at h
  dsimp only at h
  cases hx : extractDebug (jsonParse text) text with
  | error e => rw [hx] at h; simp [Bind.bind, Except.bind] at h
  | ok r =>
      obtain ⟨fa, ta, fam, tam⟩ := r
      rw [hx] at h
      simp only [Bind.bind, Except.bind, Pure.pure, Except.pure] at h
      cases hnf : debugCoerceE fam with
      | error e => rw [hnf] at h; simp at h
      | ok nf =>
          rw [hnf] at h
          cases hnt : debugCoerceE tam with
          | error e => rw [hnt] at h; simp at h
          | ok nt =>
              rw [hnt] at h
              simp only [Except.ok.injEq] at h
              rw [← h]

theorem processMessage_key (debug : Bool) (username : String) (now idx : ℕ)
    (msg : Message) (o : ExtractedOffer)
    (h : processMessage debug username now idx msg = some o) :
    o.key = keyOf msg.timestamp now idx := by
  unfold processMessage at h
  cases hE : processMessageE debug username now idx msg with
  | error e => rw [hE] at h; cases h
  | ok r =>
      rw [hE] at h
      subst h
      unfold processMessageE at hE
      cases hdec : decodeBase64Utf8 msg.payload with
      | none => rw [hdec] at hE; cases hE
      | some text =>
          rw [hdec] at hE
          simp only [Bind.bind, Except.bind, Pure.pure, Except.pure] at hE
          by_cases hdbg : (debug && tsTruthy msg.timestamp) = true
          · rw [if_pos hdbg] at hE
            cases hdo : debugOffer text (isMyOffer text username)
                (keyOf msg.timestamp now idx) msg.timestamp with
            | error e => rw [hdo] at hE; simp at hE
            | ok o' =>
                rw [hdo] at hE
                simp only [Except.ok.injEq, Option.some.injEq] at hE
                rw [hE] at hdo
                exact debugOffer_key _ _ _ _ _ hdo
          · rw [if_neg hdbg] at hE
            by_cases hnd : (!debug) = true
            · rw [if_pos hnd] at hE
              exact extractNormal_key _ _ _ _ _ hE
            · rw [if_neg hnd] at hE
              simp at hE

theorem swapOffersFrom_key_mem (debug : Bool) (username : String) (now : ℕ) :
    ∀ (msgs : List Message) (start : ℕ) (o : ExtractedOffer),
    o ∈ swapOffersFrom debug username now start msgs →
    ∃ ts i, start ≤ i ∧ o.key = keyOf ts now i := by
  intro msgs
  induction msgs with
  | nil =>
      intro start o h
      simp [swapOffersFrom] at h
  | cons m ms ih =>
      intro start o h
      rw [show swapOffersFrom debug username now start (m :: ms)
          = (match processMessage debug username now start m with
            | some o' => o' :: swapOffersFrom debug username now (start + 1) ms
            | none => swapOffersFrom debug username now (start + 1) ms)
          from rfl] at h
      cases hm : processMessage debug username now start m with
      | some o' =>
          rw [hm] at h
          rcases List.mem_cons.mp h with rfl | hmem
          · exact ⟨m.timestamp, start, Nat.le_refl _,
              processMessage_key debug username now start m o hm⟩
          · obtain ⟨ts, i, hi, hk⟩ := ih (start + 1) o hmem
            exact ⟨ts, i, by omega, hk⟩
      | none =>
          rw [hm] at h
          obtain ⟨ts, i, hi, hk⟩ := ih (start + 1) o h
          exact ⟨ts, i, by omega, hk⟩

theorem seg_after_dash : ∀ (u u' v v' : List Char),
    u ++ '-' :: v = u' ++ '-' :: v' → '-' ∉ u → '-' ∉ u' → u = u' := by
  intro u
  induction u with
  | nil =>
      intro u' v v' h hu hu'
      cases u' with
      | nil => rfl
      | cons c cs =>
          simp only [List.nil_append, List.cons_append, List.cons.injEq] at h
          exact absurd (h.1 ▸ List.mem_cons_self _ _) hu'
  | cons c cs ih =>
      intro u' v v' h hu hu'
      cases u' with
      | nil =>
          simp only [List.nil_append, List.cons_append, List.cons.injEq] at h
          exact absurd (h.1 ▸ List.mem_cons_self _ _) hu
      | cons c' cs' =>
          simp only [List.cons_append, List.cons.injEq] at h
          rw [h.1, ih cs' v v' h.2 (fun hm => hu (List.mem_cons_of_mem _ hm))
            (fun hm => hu' (List.mem_cons_of_mem _ hm))]

theorem keyOf_data (ts : Option String) (now i : ℕ) :
    (keyOf ts now i).data = (ts.getD (natDec now)).data ++ '-' :: natDecL i := by
  unfold keyOf
  show ((ts.getD (natDec now) ++ "-") ++ natDec i).data = _
  rw [show ((ts.getD (natDec now) ++ "-") ++ natDec i).data
      = ((ts.getD (natDec now)).data ++ ['-']) ++ natDecL i from rfl,
    List.append_assoc]
  rfl

theorem keyOf_inj {ts1 ts2 : Option String} {now i j : ℕ}
    (h : keyOf ts1 now i = keyOf ts2 now j) : i = j := by
  have hd := congrArg String.data h
  rw [keyOf_data, keyOf_data] at hd
  have hrev := congrArg List.reverse hd
  simp only [List.reverse_append, List.reverse_cons] at hrev
  rw [List.append_assoc, List.append_assoc] at hrev
  simp only [List.singleton_append] at hrev
  have := seg_after_dash (natDecL i).reverse (natDecL j).reverse _ _ hrev
    (fun hm => natDecL_ne_dash i '-' (List.mem_reverse.mp hm) rfl)
    (fun hm => natDecL_ne_dash j '-' (List.mem_reverse.mp hm) rfl)
  exact natDecL_inj (List.reverse_injective this)

theorem swapOffersFrom_pairwise (debug : Bool) (username : String) (now : ℕ) :
    ∀ (msgs : List Message) (start : ℕ),
    (swapOffersFrom debug username now start msgs).Pairwise
      (fun a b => a.key ≠ b.key) := by
  intro msgs
  induction msgs with
  | nil => intro start; simp [swapOffersFrom]
  | cons m ms ih =>
      intro start
      rw [show swapOffersFrom debug username now start (m :: ms)
          = (match processMessage debug username now start m with
            | some o' => o' :: swapOffersFrom debug username now (start + 1) ms
            | none => swapOffersFrom debug username now (start + 1) ms)
          from rfl]
      cases hm : processMessage debug username now start m with
      | none => exact ih (start + 1)
      | some o =>
          refine List.Pairwise.cons ?_ (ih (start + 1))
          intro b hb hEq
          obtain ⟨ts, i, hi, hk⟩ :=
            swapOffersFrom_key_mem debug username now ms (start + 1) b hb
          have ho := processMessage_key debug username now start m o hm
          rw [ho, hk] at hEq
          have := keyOf_inj hEq
          omega

/-- Claim C10 (key uniqueness within one pass): in a single extraction
pass the `key` fields of the produced offers are pairwise distinct: each
key is the message timestamp (or the wall-clock fallback) followed by a
dash and the decimal index, the index differs between any two produced
offers, and the decimal index after the final dash determines the
index. -/
theorem claim_C10 (community : Option String) (debug : Bool)
    (username : String) (now : ℕ) (messages : List Message) :
    (swapOffers community debug username now messages).Pairwise
      (fun a b => a.key ≠ b.key) := by
  unfold swapOffers
  exact swapOffersFrom_pairwise debug username now _ 0

/-! ## Debug regex fallback and normal-mode rate lemmas -/

theorem debugOffer_regex (text : String) (mine : Bool) (key : String)
    (ts : Option String) (hjson : jsonParse text = none) :
    ∃ o, debugOffer text mine key ts = .ok o
      ∧ o.fromAsset = (regexExtract text).1
      ∧ o.toAsset = (regexExtract text).2.1
      ∧ o.fromAmount = (regexExtract text).2.2.1
      ∧ o.toAmount = (regexExtract text).2.2.2
      ∧ o.isValidJSON = false := by
  unfold debugOffer
  dsimp only
  rw [hjson]
  obtain ⟨h1, h2⟩ := regexExtract_notNU text
  rcases hre : regexExtract text with ⟨fa, ta, fam, tam⟩
  rw [hre] at h1 h2
  rw [show extractDebug none text = pure (regexExtract text) from rfl, hre]
  simp only [Bind.bind, Except.bind, Pure.pure, Except.pure]
  obtain ⟨nf, hnf⟩ := debugCoerceE_ok fam h1
  rw [hnf]
  obtain ⟨nt, hnt⟩ := debugCoerceE_ok tam h2
  rw [hnt]
  exact ⟨_, rfl, rfl, rfl, rfl, rfl, rfl⟩

/-- Claim C7, counterexample to the claim as stated: the non-JSON debug
payload "BTC 1 BTC 2" has a single distinct ticker match, so under the
claim only fromAsset would be assigned and toAsset would stay "Unknown";
the code assigns the first two (equal) matches, so toAsset is "BTC". -/
theorem claim_C7_counterexample :
    (processMessage true "u" 0 0
        (⟨encodeBase64Utf8 "BTC 1 BTC 2", "t", some "5"⟩ : Message)).map
      (fun o => (o.fromAsset, o.toAsset)) ≠ some ("BTC", "Unknown") := by
  decide

/-- Claim C7, amended (the first two matches, not the first two distinct
matches): for a debug-mode message with a timestamp whose decoded text is
not valid JSON, the case-insensitive matches of the literal ticker set
collected in order of appearance give fromAsset/toAsset uppercased (only
fromAsset when there is a single match), and the first two matches of
`\d+\.?\d*` give fromAmount/toAmount (only fromAmount when there is a
single match). -/
theorem claim_C7_amended (username : String) (now idx : ℕ) (msg : Message)
    (text ts : String)
    (hdec : decodeBase64Utf8 msg.payload = some text)
    (hts : msg.timestamp = some ts) (hne : ts ≠ "")
    (hjson : jsonParse text = none) :
    ∃ o, processMessage true username now idx msg = some o
      ∧ o.isValidJSON = false
      ∧ o.fromAsset = (match assetMatches text.data with
          | a :: _ :: _ => jsToUpper a
          | [a] => jsToUpper a
          | [] => "Unknown")
      ∧ o.toAsset = (match assetMatches text.data with
          | _ :: b :: _ => jsToUpper b
          | _ => "Unknown")
      ∧ o.fromAmount = (match numMatches text.data with
          | n0 :: _ => numOrStr n0
          | [] => RVal.rstr "?")
      ∧ o.toAmount = (match numMatches text.data with
          | _ :: n1 :: _ => numOrStr n1
          | _ => RVal.rstr "?") := by
  rw [processMessage_eq_debug username now idx msg text ts hdec hts hne]
  obtain ⟨o, ho, h1, h2, h3, h4, h5⟩ :=
    debugOffer_regex text (isMyOffer text username)
      (keyOf msg.timestamp now idx) msg.timestamp hjson
  rw [ho]
  refine ⟨o, rfl, h5, ?_, ?_, ?_, ?_⟩
  · rw [h1]
    unfold regexExtract
    rcases assetMatches text.data with _ | ⟨a, _ | ⟨b, arest⟩⟩ <;> rfl
  · rw [h2]
    unfold regexExtract
    rcases assetMatches text.data with _ | ⟨a, _ | ⟨b, arest⟩⟩ <;> rfl
  · rw [h3]
    unfold regexExtract
    rcases numMatches text.data with _ | ⟨n0, _ | ⟨n1, nrest⟩⟩ <;> rfl
  · rw [h4]
    unfold regexExtract
    rcases numMatches text.data with _ | ⟨n0, _ | ⟨n1, nrest⟩⟩ <;> rfl

def msgScenC : Message :=
  ⟨encodeBase64Utf8 "alice sent 2 BTC for 130000 USDC", "t",
   some "1700000000000000000"⟩

/-- Witness for the amended C7 at the scenario-C payload. -/
theorem claim_C7_witness :
    decodeBase64Utf8 msgScenC.payload
        = some "alice sent 2 BTC for 130000 USDC"
    ∧ msgScenC.timestamp = some "1700000000000000000"
    ∧ ("1700000000000000000" : String) ≠ ""
    ∧ jsonParse "alice sent 2 BTC for 130000 USDC" = none
    ∧ ∃ o, processMessage true "alice" 0 0 msgScenC = some o
        ∧ o.isValidJSON = false
        ∧ o.fromAsset = (match assetMatches
              ("alice sent 2 BTC for 130000 USDC" : String).data with
            | a :: _ :: _ => jsToUpper a
            | [a] => jsToUpper a
            | [] => "Unknown")
        ∧ o.toAsset = (match assetMatches
              ("alice sent 2 BTC for 130000 USDC" : String).data with
            | _ :: b :: _ => jsToUpper b
            | _ => "Unknown")
        ∧ o.fromAmount = (match numMatches
              ("alice sent 2 BTC for 130000 USDC" : String).data with
            | n0 :: _ => numOrStr n0
            | [] => RVal.rstr "?")
        ∧ o.toAmount = (match numMatches
              ("alice sent 2 BTC for 130000 USDC" : String).data with
            | _ :: n1 :: _ => numOrStr n1
            | _ => RVal.rstr "?") :=
  ⟨by rfl, by rfl, by decide, by rfl,
   claim_C7_amended "alice" 0 0 msgScenC
     "alice sent 2 BTC for 130000 USDC" "1700000000000000000"
     (by rfl) (by rfl) (by decide) (by rfl)⟩

/-! ## Normal-mode rate formula (claim C8) -/

theorem nan_div (x : JSNum) : JSNum.nan.div x = JSNum.nan := by
  cases x <;> rfl

theorem extractNormal_rate (text : String) (mine : Bool) (key : String)
    (ts : Option String) (offer fa ta fam tam : RVal) (nf nt : JSNum)
    (hp : jsonParse text = some offer)
    (hx : extractShapes offer = .ok (fa, ta, fam, tam))
    (hg : missingGuard fa ta fam tam = false)
    (hnf : coerceNumE fam = .ok nf) (hnt : coerceNumE tam = .ok nt) :
    ∃ o, extractNormal text mine key ts = .ok (some o)
      ∧ o.rate = (if nf.gtQ 0 then (nt.div nf).toFixed 4 else "0")
      ∧ o.fromAmount = RVal.rnum nf ∧ o.toAmount = RVal.rnum nt := by
  have hfat : fa.truthy = true := by
    by_contra hc
    rw [Bool.not_eq_true] at hc
    simp [missingGuard, hc] at hg
  have htat : ta.truthy = true := by
    by_contra hc
    rw [Bool.not_eq_true] at hc
    simp [missingGuard, hc] at hg
  obtain ⟨fs, hfs⟩ := toStrE_ok_of_notNU fa (truthy_notNU fa hfat)
  obtain ⟨tstr, hts2⟩ := toStrE_ok_of_notNU ta (truthy_notNU ta htat)
  unfold extractNormal
  rw [hp]
  dsimp only
  rw [hx]
  simp only [Bind.bind, Except.bind, Pure.pure, Except.pure]
  rw [if_neg (by simp [hg])]
  rw [hnf]
  dsimp only
  rw [hnt]
  dsimp only
  rw [hfs]
  dsimp only
  rw [hts2]
  dsimp only
  exact ⟨_, rfl, rfl, rfl, rfl⟩

def flatTextBadAmt : String :=
  "\x7b\"fromAsset\":\"BTC\",\"fromAmount\":\"abc\",\"toAsset\":\"USDC\",\"toAmount\":\"1\",\"timestamp\":\"5\"\x7d"

def msgBadAmt : Message := ⟨encodeBase64Utf8 flatTextBadAmt, "t", some "5"⟩

/-- Claim C8, counterexample to the claim as stated: a flat offer whose
fromAmount is the non-numeric string "abc" coerces to NaN, but the
produced offer's rate is "0" (the `numFromAmount > 0` test fails on NaN
and yields the '0' branch of line 992), not the sentinel "N/A". -/
theorem claim_C8_counterexample :
    (processMessage false "u" 0 0 msgBadAmt).map (fun o => o.rate) = some "0"
      ∧ some "0" ≠ some ("N/A" : String) := by
  constructor
  · rfl
  · decide

/-- Claim C8, amended: in normal mode a present-but-non-numeric amount
coerces to NaN without an exception, and the produced offer's rate is
`numFromAmount > 0 ? (numToAmount/numFromAmount).toFixed(4) : '0'`: a NaN
fromAmount yields rate "0" (not "N/A"), and a NaN toAmount with a positive
fromAmount yields rate "NaN" (not "N/A"). -/
theorem claim_C8_amended (username : String) (now idx : ℕ) (msg : Message)
    (text : String) (offer fa ta fam tam : RVal) (nf nt : JSNum)
    (hdec : decodeBase64Utf8 msg.payload = some text)
    (hp : jsonParse text = some offer)
    (hx : extractShapes offer = .ok (fa, ta, fam, tam))
    (hg : missingGuard fa ta fam tam = false)
    (hnf : coerceNumE fam = .ok nf) (hnt : coerceNumE tam = .ok nt) :
    ∃ o, processMessage false username now idx msg = some o
      ∧ o.fromAmount = RVal.rnum nf ∧ o.toAmount = RVal.rnum nt
      ∧ o.rate = (if nf.gtQ 0 then (nt.div nf).toFixed 4 else "0")
      ∧ (nf = JSNum.nan → o.rate = "0" ∧ o.rate ≠ "N/A")
      ∧ (nf.gtQ 0 = true → nt = JSNum.nan → o.rate = "NaN" ∧ o.rate ≠ "N/A") := by
  rw [processMessage_eq_normal username now idx msg text hdec]
  obtain ⟨o, ho, hr, hfam2, htam2⟩ :=
    extractNormal_rate text (isMyOffer text username)
      (keyOf msg.timestamp now idx) msg.timestamp offer fa ta fam tam nf nt
      hp hx hg hnf hnt
  rw [ho]
  refine ⟨o, rfl, hfam2, htam2, hr, ?_, ?_⟩
  · intro h
    subst h
    rw [hr, if_neg (show ¬(JSNum.nan.gtQ 0 = true) from by decide)]
    exact ⟨rfl, by decide⟩
  · intro h1 h2
    subst h2
    rw [hr, if_pos h1, nan_div]
    exact ⟨rfl, by decide⟩

/-- Witness for the amended C8 at the concrete bad-amount message. -/
theorem claim_C8_witness :
    decodeBase64Utf8 msgBadAmt.payload = some flatTextBadAmt
    ∧ (∃ offer, jsonParse flatTextBadAmt = some offer)
    ∧ ∃ o, processMessage false "u" 0 0 msgBadAmt = some o
        ∧ o.rate = (if JSNum.nan.gtQ 0
            then ((JSNum.num 1).div JSNum.nan).toFixed 4 else "0")
        ∧ (JSNum.nan = JSNum.nan → o.rate = "0" ∧ o.rate ≠ "N/A") :=
  ⟨by rfl, ⟨_, rfl⟩,
   match claim_C8_amended "u" 0 0 msgBadAmt flatTextBadAmt
      (RVal.robj [("fromAsset", RVal.rstr "BTC"),
                  ("fromAmount", RVal.rstr "abc"),
                  ("toAsset", RVal.rstr "USDC"),
                  ("toAmount", RVal.rstr "1"),
                  ("timestamp", RVal.rstr "5")])
      (RVal.rstr "BTC") (RVal.rstr "USDC") (RVal.rstr "abc") (RVal.rstr "1")
      JSNum.nan (JSNum.num 1)
      (by rfl) (by rfl) (by rfl) (by decide) (by rfl) (by rfl) with
   | ⟨o, h1, _, _, h4, h5, _⟩ => ⟨o, h1, h4, h5⟩⟩

/-! ## Claim C2: the flat-offer JSON round trip. Auxiliary list and digit
lemmas first. -/

theorem skipWs_cons (c : Char) (r : List Char) (h : isJsonWs c = false) :
    skipWs (c :: r) = c :: r := by
  simp [skipWs, List.dropWhile_cons, h]

theorem takeWhile_append_all (p : Char → Bool) :
    ∀ (l1 l2 : List Char), (∀ c ∈ l1, p c = true)
    → (∀ c, l2.head? = some c → p c = false)
    → (l1 ++ l2).takeWhile p = l1
  | [], l2, _, h2 => by
      cases l2 with
      | nil => rfl
      | cons c r => simp [List.takeWhile_cons, h2 c rfl]
  | a :: l1, l2, h1, h2 => by
      simp only [List.cons_append, List.takeWhile_cons, h1 a (by simp), if_true]
      rw [takeWhile_append_all p l1 l2 (fun c hc => h1 c (by simp [hc])) h2]

theorem dropWhile_append_all (p : Char → Bool) :
    ∀ (l1 l2 : List Char), (∀ c ∈ l1, p c = true)
    → (∀ c, l2.head? = some c → p c = false)
    → (l1 ++ l2).dropWhile p = l2
  | [], l2, _, h2 => by
      cases l2 with
      | nil => rfl
      | cons c r => simp [List.dropWhile_cons, h2 c rfl]
  | a :: l1, l2, h1, h2 => by
      simp only [List.cons_append, List.dropWhile_cons, h1 a (by simp), if_true]
      exact dropWhile_append_all p l1 l2 (fun c hc => h1 c (by simp [hc])) h2

theorem natDecAux_zero (f : ℕ) : natDecAux f 0 = [] := by
  cases f <;> simp [natDecAux]

theorem natDecAux_head (f : ℕ) : ∀ n, n ≠ 0 → n ≤ f →
    ∃ d l, 0 < d ∧ d < 10 ∧ natDecAux f n = Nat.digitChar d :: l := by
  induction f with
  | zero => intro n h hle; omega
  | succ f ih =>
      intro n h hle
      unfold natDecAux
      rw [if_neg h]
      by_cases h10 : n / 10 = 0
      · rw [h10, natDecAux_zero, List.nil_append]
        have hlt : n < 10 := by omega
        have hmod : n % 10 = n := Nat.mod_eq_of_lt hlt
        exact ⟨n, [], by omega, hlt, by rw [hmod]⟩
      · obtain ⟨d, l, hd0, hd10, hl⟩ := ih (n / 10) h10 (by omega)
        exact ⟨d, l ++ [Nat.digitChar (n % 10)], hd0, hd10, by rw [hl]; rfl⟩

theorem natDecL_head (n : ℕ) (h : n ≠ 0) :
    ∃ d l, 0 < d ∧ d < 10 ∧ natDecL n = Nat.digitChar d :: l := by
  unfold natDecL
  rw [if_neg h]
  exact natDecAux_head (n + 1) n h (by omega)

theorem natDecL_no_leading_zero (n : ℕ) :
    ¬((natDecL n).head? = some '0' ∧ (natDecL n).length ≠ 1) := by
  by_cases h : n = 0
  · subst h
    rintro ⟨_, hlen⟩
    exact hlen (by decide)
  · obtain ⟨d, l, hd0, hd10, hl⟩ := natDecL_head n h
    rw [hl]
    rintro ⟨hh, _⟩
    rw [List.head?_cons, Option.some.injEq] at hh
    interval_cases d <;> exact absurd hh (by decide)

theorem natDecAux_length_le (f : ℕ) : ∀ n k, n < 10 ^ k →
    (natDecAux f n).length ≤ k := by
  induction f with
  | zero => intro n k _; simp [natDecAux]
  | succ f ih =>
      intro n k hn
      unfold natDecAux
      by_cases h : n = 0
      · simp [h]
      · rw [if_neg h]
        cases k with
        | zero => simp at hn; omega
        | succ k =>
            have hdiv : n / 10 < 10 ^ k := by
              rw [pow_succ] at hn
              omega
            have h2 := ih (n / 10) k hdiv
            simp only [List.length_append, List.length_cons, List.length_nil]
            omega

theorem natDecL_length_le (m e : ℕ) (he : 1 ≤ e) (h : m < 10 ^ e) :
    (natDecL m).length ≤ e := by
  unfold natDecL
  by_cases h0 : m = 0
  · rw [if_pos h0]
    simpa using he
  · rw [if_neg h0]
    exact natDecAux_length_le (m + 1) m e h

theorem zeroPadL_length (e m : ℕ) (he : 1 ≤ e) (h : m < 10 ^ e) :
    (zeroPadL e m).length = e := by
  have := natDecL_length_le m e he h
  simp only [zeroPadL, List.length_append, List.length_replicate]
  omega

theorem zeroPadL_isDigit (e m : ℕ) : ∀ c ∈ zeroPadL e m, c.isDigit = true := by
  intro c hc
  rcases List.mem_append.mp hc with h | h
  · rw [List.eq_of_mem_replicate h]
    decide
  · exact natDecL_isDigit m c h

theorem foldl_replicate_zero (k : ℕ) (l : List Char) :
    (List.replicate k '0' ++ l).foldl (fun a c => a * 10 + digVal c) 0
      = l.foldl (fun a c => a * 10 + digVal c) 0 := by
  induction k with
  | zero => rfl
  | succ k ih =>
      rw [List.replicate_succ, List.cons_append, List.foldl_cons]
      have h0 : (0 * 10 + digVal '0') = 0 := by decide
      rw [h0, ih]

theorem charsToNat_zeroPadL (e m : ℕ) : charsToNat (zeroPadL e m) = m := by
  unfold zeroPadL charsToNat
  rw [foldl_replicate_zero]
  exact charsToNat_natDecL m

theorem isDigit_not_ws (c : Char) (h : c.isDigit = true) : isJsonWs c = false := by
  cases hw : isJsonWs c
  · rfl
  · exfalso
    unfold isJsonWs at hw
    simp only [Bool.or_eq_true, beq_iff_eq] at hw
    rcases hw with ((h1 | h1) | h1) | h1 <;> subst h1 <;>
      exact absurd h (by decide)

theorem parseJsonNum_dash (r : List Char) :
    parseJsonNum ('-' :: r) = parseJsonNumCore true r := rfl

theorem parseJsonNum_digit (c : Char) (r : List Char) (h : c.isDigit = true) :
    parseJsonNum (c :: r) = parseJsonNumCore false (c :: r) := by
  have hc : c ≠ '-' := by
    intro he
    subst he
    exact absurd h (by decide)
  unfold parseJsonNum
  split
  · next r2 heq =>
      injection heq with h1 h2
      exact absurd h1 hc
  · rfl


theorem parseJsonNumCore_decPoint (neg : Bool) (a e : ℕ) (rest : List Char)
    (hrest : ∀ c, rest.head? = some c →
      (c.isDigit = false ∧ c ≠ '.' ∧ c ≠ 'e' ∧ c ≠ 'E')) :
    parseJsonNumCore neg (decPointL a e ++ rest)
      = some ((if neg then -(a : ℚ) else (a : ℚ)) / 10 ^ e, rest) := by
  have hdig : ∀ c, rest.head? = some c → c.isDigit = false :=
    fun c hc => (hrest c hc).1
  by_cases he : e = 0
  · subst he
    unfold decPointL
    rw [if_pos rfl]
    unfold parseJsonNumCore
    rw [takeWhile_append_all _ _ _ (natDecL_isDigit a) hdig,
        dropWhile_append_all _ _ _ (natDecL_isDigit a) hdig]
    rw [if_neg (by simp [List.isEmpty_iff, natDecL_ne_nil])]
    rw [if_neg (natDecL_no_leading_zero a)]
    split
    · next r2 heq =>
        exact absurd rfl (hrest '.' rfl).2.1
    · rw [charsToNat_natDecL]
      unfold jsonExpPart
      split
      · next r1 heq => exact absurd rfl (hrest 'e' rfl).2.2.1
      · next r1 heq => exact absurd rfl (hrest 'E' rfl).2.2.2
      · unfold jsonNumVal applyExp
        cases neg <;> simp [charsToNat]
  · unfold decPointL
    rw [if_neg he]
    have hpow : 0 < 10 ^ e := by positivity
    have hm : a % 10 ^ e < 10 ^ e := Nat.mod_lt _ hpow
    have hzl : (zeroPadL e (a % 10 ^ e)).length = e :=
      zeroPadL_length e _ (by omega) hm
    have hdot : ∀ c : Char, (('.' :: (zeroPadL e (a % 10 ^ e) ++ rest)).head?
        = some c) → c.isDigit = false := by
      intro c hc
      rw [List.head?_cons, Option.some.injEq] at hc
      subst hc
      decide
    unfold parseJsonNumCore
    rw [List.append_assoc, List.cons_append]
    rw [takeWhile_append_all _ _ _ (natDecL_isDigit _) hdot,
        dropWhile_append_all _ _ _ (natDecL_isDigit _) hdot]
    rw [if_neg (by simp [List.isEmpty_iff, natDecL_ne_nil])]
    rw [if_neg (natDecL_no_leading_zero _)]
    split
    · next r2 heq =>
        injection heq with hh ht
        subst ht
        rw [takeWhile_append_all _ _ _ (zeroPadL_isDigit e _) hdig,
            dropWhile_append_all _ _ _ (zeroPadL_isDigit e _) hdig]
        rw [if_neg (by
          simp only [List.isEmpty_iff]
          intro hnil
          have hlen0 := congrArg List.length hnil
          rw [hzl] at hlen0
          simp at hlen0
          omega)]
        rw [charsToNat_natDecL]
        unfold jsonExpPart
        split
        · next r1 heq2 =>
            exact absurd rfl (hrest 'e' rfl).2.2.1
        · next r1 heq2 =>
            exact absurd rfl (hrest 'E' rfl).2.2.2
        · unfold jsonNumVal applyExp
          dsimp only
          rw [charsToNat_zeroPadL, hzl]
          have hne10 : ((10 : ℚ) ^ e) ≠ 0 := by positivity
          have key : ((a / 10 ^ e : ℕ) : ℚ) + ((a % 10 ^ e : ℕ) : ℚ) / 10 ^ e
              = (a : ℚ) / 10 ^ e := by
            have hdm := Nat.div_add_mod a (10 ^ e)
            have hq : ((10 ^ e * (a / 10 ^ e) + a % 10 ^ e : ℕ) : ℚ)
                = (a : ℚ) := by exact_mod_cast congrArg (fun n : ℕ => (n : ℚ)) hdm
            push_cast at hq
            field_simp
            linarith [hq]
          cases neg <;> simp [key, neg_div]
    · next hno =>
        exact absurd ((hno (zeroPadL e (a % 10 ^ e) ++ rest)) rfl) (by simp)

theorem parseJVal_strLit (f : ℕ) (l rest : List Char) :
    parseJVal (f + 1) ('"' :: (escJsonL l ++ '"' :: rest))
      = some (RVal.rstr ⟨l⟩, rest) := by
  simp only [parseJVal]
  rw [skipWs_cons _ _ (by decide)]
  dsimp only
  rw [if_pos rfl, parseStrBody_esc]
  rfl

theorem parseJVal_cons_num (f : ℕ) (c : Char) (r : List Char)
    (hd : c = '-' ∨ c.isDigit = true) :
    parseJVal (f + 1) (c :: r)
      = (parseJsonNum (c :: r)).map (fun p => (RVal.rnum (.num p.1), p.2)) := by
  have hws : isJsonWs c = false := by
    rcases hd with h | h
    · subst h; decide
    · exact isDigit_not_ws c h
  have h1 : c ≠ '"' := by
    rcases hd with h | h
    · subst h; decide
    · intro he; subst he; exact absurd h (by decide)
  have h2 : c ≠ lbrace := by
    rcases hd with h | h
    · subst h; decide
    · intro he; subst he; exact absurd h (by decide)
  have h3 : c ≠ '[' := by
    rcases hd with h | h
    · subst h; decide
    · intro he; subst he; exact absurd h (by decide)
  have h4 : c ≠ 't' := by
    rcases hd with h | h
    · subst h; decide
    · intro he; subst he; exact absurd h (by decide)
  have h5 : c ≠ 'f' := by
    rcases hd with h | h
    · subst h; decide
    · intro he; subst he; exact absurd h (by decide)
  have h6 : c ≠ 'n' := by
    rcases hd with h | h
    · subst h; decide
    · intro he; subst he; exact absurd h (by decide)
  simp only [parseJVal]
  rw [skipWs_cons _ _ hws]
  dsimp only
  rw [if_neg h1, if_neg h2, if_neg h3, if_neg h4, if_neg h5, if_neg h6,
      if_pos hd]

theorem parseJVal_numLit (f : ℕ) (m : ℤ) (e : ℕ) (rest : List Char)
    (hrest : ∀ c, rest.head? = some c →
      (c.isDigit = false ∧ c ≠ '.' ∧ c ≠ 'e' ∧ c ≠ 'E')) :
    parseJVal (f + 1) (numLitJson m e ++ rest)
      = some (RVal.rnum (.num ((m : ℚ) / 10 ^ e)), rest) := by
  unfold numLitJson
  by_cases hm : m < 0
  · rw [if_pos hm]
    simp only [List.cons_append, List.nil_append, List.append_assoc]
    rw [parseJVal_cons_num f '-' _ (Or.inl rfl)]
    rw [parseJsonNum_dash, parseJsonNumCore_decPoint true _ e rest hrest]
    have hcast : ((m.natAbs : ℚ)) = -(m : ℚ) := by
      rw [Int.cast_natAbs, abs_of_neg hm]
      push_cast
      ring
    simp [hcast]
  · rw [if_neg hm, List.nil_append]
    have hhead : ∃ d l', d < 10 ∧
        decPointL m.natAbs e = Nat.digitChar d :: l' := by
      unfold decPointL
      by_cases he : e = 0
      · rw [if_pos he]
        by_cases h0 : m.natAbs = 0
        · exact ⟨0, [], by norm_num, by rw [h0]; decide⟩
        · obtain ⟨d, l, _, hd10, hl⟩ := natDecL_head _ h0
          exact ⟨d, l, hd10, hl⟩
      · rw [if_neg he]
        by_cases h0 : m.natAbs / 10 ^ e = 0
        · exact ⟨0, '.' :: zeroPadL e (m.natAbs % 10 ^ e), by norm_num, by
            rw [h0, show natDecL 0 = [Nat.digitChar 0] from by decide]
            rfl⟩
        · obtain ⟨d, l, _, hd10, hl⟩ := natDecL_head _ h0
          exact ⟨d, l ++ '.' :: zeroPadL e (m.natAbs % 10 ^ e), hd10,
            by rw [hl]; rfl⟩
    obtain ⟨d, l', hd10, hdp⟩ := hhead
    rw [hdp, List.cons_append]
    rw [parseJVal_cons_num f _ _ (Or.inr (isDigit_digitChar hd10))]
    rw [parseJsonNum_digit _ _ (isDigit_digitChar hd10)]
    rw [← List.cons_append, ← hdp]
    rw [parseJsonNumCore_decPoint false _ e rest hrest]
    have hcast : ((m.natAbs : ℚ)) = (m : ℚ) := by
      rw [Int.cast_natAbs, abs_of_nonneg (not_lt.mp hm)]
    simp [hcast]

theorem parseJVal_obj (f : ℕ) (r : List Char) (c2 : Char) (r2 : List Char)
    (h : skipWs r = c2 :: r2) (hc2 : c2 ≠ rbrace) :
    parseJVal (f + 1) (lbrace :: r) = parseMembers f (c2 :: r2) [] := by
  simp only [parseJVal]
  rw [skipWs_cons _ _ (by decide)]
  dsimp only
  rw [if_neg (by decide), if_pos rfl, h]
  dsimp only
  rw [if_neg hc2]

theorem parseMembers_cons_comma (f : ℕ) (k vrest r3 r4 : List Char) (v : RVal)
    (acc : List (String × RVal))
    (hv : parseJVal f vrest = some (v, r3))
    (h3 : skipWs r3 = ',' :: r4) :
    parseMembers (f + 1) ('"' :: (escJsonL k ++ '"' :: ':' :: vrest)) acc
      = parseMembers f (skipWs r4) (acc ++ [(⟨k⟩, v)]) := by
  simp only [parseMembers]
  rw [parseStrBody_esc]
  try dsimp only
  rw [skipWs_cons _ _ (by decide)]
  split
  · next r2 heq =>
      injection heq with h1 h2
      subst h2
      rw [hv]
      try dsimp only
      rw [h3]
      split
      · next r4x heq2 =>
          injection heq2 with h1x h2x
          subst h2x
          rfl
      · next cb r4x hne heq2 =>
          exfalso
          injection heq2 with h1x h2x
          exact hne h1x.symm
      · next x heq2 => simp at heq2
  · next x hne => exact absurd rfl (hne vrest)

theorem parseMembers_cons_rbrace (f : ℕ) (k vrest r3 : List Char) (v : RVal)
    (acc : List (String × RVal))
    (hv : parseJVal f vrest = some (v, r3))
    (h3 : skipWs r3 = [rbrace]) :
    parseMembers (f + 1) ('"' :: (escJsonL k ++ '"' :: ':' :: vrest)) acc
      = some (RVal.robj (acc ++ [(⟨k⟩, v)]), []) := by
  simp only [parseMembers]
  rw [parseStrBody_esc]
  try dsimp only
  rw [skipWs_cons _ _ (by decide)]
  split
  · next r2 heq =>
      injection heq with h1 h2
      subst h2
      rw [hv]
      try dsimp only
      rw [h3]
      rfl
  · next x hne => exact absurd rfl (hne vrest)

theorem head_facts_comma (R : List Char) : ∀ c, ((',' :: R).head? = some c) →
    (c.isDigit = false ∧ c ≠ '.' ∧ c ≠ 'e' ∧ c ≠ 'E') := by
  intro c hc
  rw [List.head?_cons, Option.some.injEq] at hc
  subst hc
  exact ⟨by decide, by decide, by decide, by decide⟩

theorem head_facts_rbrace (R : List Char) : ∀ c, ((rbrace :: R).head? = some c) →
    (c.isDigit = false ∧ c ≠ '.' ∧ c ≠ 'e' ∧ c ≠ 'E') := by
  intro c hc
  rw [List.head?_cons, Option.some.injEq] at hc
  subst hc
  exact ⟨by decide, by decide, by decide, by decide⟩

theorem natDecL_eq_numLit (ts : ℕ) : natDecL ts = numLitJson (ts : ℤ) 0 := by
  have hnn : ¬((ts : ℤ) < 0) := by omega
  simp [numLitJson, decPointL, hnn, Int.natAbs_ofNat]

theorem parseJVal_flatOffer (F : ℕ) (l1 l2 : List Char) (m1 m2 : ℤ)
    (e1 e2 ts : ℕ) :
    parseJVal (F + 7) (flatOfferJson ⟨l1⟩ m1 e1 ⟨l2⟩ m2 e2 ts).data
      = some (RVal.robj [("fromAsset", RVal.rstr ⟨l1⟩),
          ("fromAmount", RVal.rnum (.num ((m1 : ℚ) / 10 ^ e1))),
          ("toAsset", RVal.rstr ⟨l2⟩),
          ("toAmount", RVal.rnum (.num ((m2 : ℚ) / 10 ^ e2))),
          ("timestamp", RVal.rnum (.num ((ts : ℚ))))], []) := by
  have hm5 : ∀ acc, parseMembers (F + 2) ('"' :: (escJsonL "timestamp".data ++ '"' :: ':' :: (natDecL ts ++ [rbrace]))) acc
      = some (RVal.robj (acc ++ [("timestamp", RVal.rnum (.num ((ts : ℚ))))]), []) := by
    intro acc
    have hts : parseJVal (F + 1) (natDecL ts ++ [rbrace])
        = some (RVal.rnum (.num ((ts : ℚ))), [rbrace]) := by
      rw [natDecL_eq_numLit ts,
        parseJVal_numLit F (ts : ℤ) 0 [rbrace] (head_facts_rbrace [])]
      push_cast
      norm_num
    exact parseMembers_cons_rbrace (F + 1) "timestamp".data _ [rbrace] _ acc
      hts (by decide)
  have hm4 : ∀ acc, parseMembers (F + 3) ('"' :: (escJsonL "toAmount".data ++ '"' :: ':' :: (numLitJson m2 e2 ++ ',' :: ('"' :: (escJsonL "timestamp".data ++ '"' :: ':' :: (natDecL ts ++ [rbrace])))))) acc
      = some (RVal.robj ((acc ++ [("toAmount", RVal.rnum (.num ((m2 : ℚ) / 10 ^ e2)))]) ++ [("timestamp", RVal.rnum (.num ((ts : ℚ))))]), []) := by
    intro acc
    have hv4 : parseJVal (F + 2) (numLitJson m2 e2 ++ ',' :: ('"' :: (escJsonL "timestamp".data ++ '"' :: ':' :: (natDecL ts ++ [rbrace]))))
        = some (RVal.rnum (.num ((m2 : ℚ) / 10 ^ e2)), ',' :: ('"' :: (escJsonL "timestamp".data ++ '"' :: ':' :: (natDecL ts ++ [rbrace])))) :=
      parseJVal_numLit (F + 1) m2 e2 _ (head_facts_comma _)
    refine Eq.trans (parseMembers_cons_comma (F + 2) "toAmount".data _ _ _ _
      acc hv4 (skipWs_cons _ _ (by decide))) ?_
    rw [skipWs_cons _ _ (by decide)]
    exact hm5 _
  have hm3 : ∀ acc, parseMembers (F + 4) ('"' :: (escJsonL "toAsset".data ++ '"' :: ':' :: ('"' :: (escJsonL l2 ++ '"' :: ',' :: ('"' :: (escJsonL "toAmount".data ++ '"' :: ':' :: (numLitJson m2 e2 ++ ',' :: ('"' :: (escJsonL "timestamp".data ++ '"' :: ':' :: (natDecL ts ++ [rbrace])))))))))) acc
      = some (RVal.robj (((acc ++ [("toAsset", RVal.rstr ⟨l2⟩)]) ++ [("toAmount", RVal.rnum (.num ((m2 : ℚ) / 10 ^ e2)))]) ++ [("timestamp", RVal.rnum (.num ((ts : ℚ))))]), []) := by
    intro acc
    have hv3 : parseJVal (F + 3) ('"' :: (escJsonL l2 ++ '"' :: ',' :: ('"' :: (escJsonL "toAmount".data ++ '"' :: ':' :: (numLitJson m2 e2 ++ ',' :: ('"' :: (escJsonL "timestamp".data ++ '"' :: ':' :: (natDecL ts ++ [rbrace]))))))))
        = some (RVal.rstr ⟨l2⟩, ',' :: ('"' :: (escJsonL "toAmount".data ++ '"' :: ':' :: (numLitJson m2 e2 ++ ',' :: ('"' :: (escJsonL "timestamp".data ++ '"' :: ':' :: (natDecL ts ++ [rbrace]))))))) :=
      parseJVal_strLit (F + 2) l2 _
    refine Eq.trans (parseMembers_cons_comma (F + 3) "toAsset".data _ _ _ _
      acc hv3 (skipWs_cons _ _ (by decide))) ?_
    rw [skipWs_cons _ _ (by decide)]
    exact hm4 _
  have hm2 : ∀ acc, parseMembers (F + 5) ('"' :: (escJsonL "fromAmount".data ++ '"' :: ':' :: (numLitJson m1 e1 ++ ',' :: ('"' :: (escJsonL "toAsset".data ++ '"' :: ':' :: ('"' :: (escJsonL l2 ++ '"' :: ',' :: ('"' :: (escJsonL "toAmount".data ++ '"' :: ':' :: (numLitJson m2 e2 ++ ',' :: ('"' :: (escJsonL "timestamp".data ++ '"' :: ':' :: (natDecL ts ++ [rbrace]))))))))))))) acc
      = some (RVal.robj ((((acc ++ [("fromAmount", RVal.rnum (.num ((m1 : ℚ) / 10 ^ e1)))]) ++ [("toAsset", RVal.rstr ⟨l2⟩)]) ++ [("toAmount", RVal.rnum (.num ((m2 : ℚ) / 10 ^ e2)))]) ++ [("timestamp", RVal.rnum (.num ((ts : ℚ))))]), []) := by
    intro acc
    have hv2 : parseJVal (F + 4) (numLitJson m1 e1 ++ ',' :: ('"' :: (escJsonL "toAsset".data ++ '"' :: ':' :: ('"' :: (escJsonL l2 ++ '"' :: ',' :: ('"' :: (escJsonL "toAmount".data ++ '"' :: ':' :: (numLitJson m2 e2 ++ ',' :: ('"' :: (escJsonL "timestamp".data ++ '"' :: ':' :: (natDecL ts ++ [rbrace])))))))))))
        = some (RVal.rnum (.num ((m1 : ℚ) / 10 ^ e1)), ',' :: ('"' :: (escJsonL "toAsset".data ++ '"' :: ':' :: ('"' :: (escJsonL l2 ++ '"' :: ',' :: ('"' :: (escJsonL "toAmount".data ++ '"' :: ':' :: (numLitJson m2 e2 ++ ',' :: ('"' :: (escJsonL "timestamp".data ++ '"' :: ':' :: (natDecL ts ++ [rbrace]))))))))))) :=
      parseJVal_numLit (F + 3) m1 e1 _ (head_facts_comma _)
    refine Eq.trans (parseMembers_cons_comma (F + 4) "fromAmount".data _ _ _ _
      acc hv2 (skipWs_cons _ _ (by decide))) ?_
    rw [skipWs_cons _ _ (by decide)]
    exact hm3 _
  have hm1 : ∀ acc, parseMembers (F + 6) ('"' :: (escJsonL "fromAsset".data ++ '"' :: ':' :: ('"' :: (escJsonL l1 ++ '"' :: ',' :: ('"' :: (escJsonL "fromAmount".data ++ '"' :: ':' :: (numLitJson m1 e1 ++ ',' :: ('"' :: (escJsonL "toAsset".data ++ '"' :: ':' :: ('"' :: (escJsonL l2 ++ '"' :: ',' :: ('"' :: (escJsonL "toAmount".data ++ '"' :: ':' :: (numLitJson m2 e2 ++ ',' :: ('"' :: (escJsonL "timestamp".data ++ '"' :: ':' :: (natDecL ts ++ [rbrace]))))))))))))))))) acc
      = some (RVal.robj (((((acc ++ [("fromAsset", RVal.rstr ⟨l1⟩)]) ++ [("fromAmount", RVal.rnum (.num ((m1 : ℚ) / 10 ^ e1)))]) ++ [("toAsset", RVal.rstr ⟨l2⟩)]) ++ [("toAmount", RVal.rnum (.num ((m2 : ℚ) / 10 ^ e2)))]) ++ [("timestamp", RVal.rnum (.num ((ts : ℚ))))]), []) := by
    intro acc
    have hv1 : parseJVal (F + 5) ('"' :: (escJsonL l1 ++ '"' :: ',' :: ('"' :: (escJsonL "fromAmount".data ++ '"' :: ':' :: (numLitJson m1 e1 ++ ',' :: ('"' :: (escJsonL "toAsset".data ++ '"' :: ':' :: ('"' :: (escJsonL l2 ++ '"' :: ',' :: ('"' :: (escJsonL "toAmount".data ++ '"' :: ':' :: (numLitJson m2 e2 ++ ',' :: ('"' :: (escJsonL "timestamp".data ++ '"' :: ':' :: (natDecL ts ++ [rbrace])))))))))))))))
        = some (RVal.rstr ⟨l1⟩, ',' :: ('"' :: (escJsonL "fromAmount".data ++ '"' :: ':' :: (numLitJson m1 e1 ++ ',' :: ('"' :: (escJsonL "toAsset".data ++ '"' :: ':' :: ('"' :: (escJsonL l2 ++ '"' :: ',' :: ('"' :: (escJsonL "toAmount".data ++ '"' :: ':' :: (numLitJson m2 e2 ++ ',' :: ('"' :: (escJsonL "timestamp".data ++ '"' :: ':' :: (natDecL ts ++ [rbrace])))))))))))))) :=
      parseJVal_strLit (F + 4) l1 _
    refine Eq.trans (parseMembers_cons_comma (F + 5) "fromAsset".data _ _ _ _
      acc hv1 (skipWs_cons _ _ (by decide))) ?_
    rw [skipWs_cons _ _ (by decide)]
    exact hm2 _
  have h0 : (flatOfferJson ⟨l1⟩ m1 e1 ⟨l2⟩ m2 e2 ts).data
      = lbrace :: ('"' :: (escJsonL "fromAsset".data ++ '"' :: ':' :: ('"' :: (escJsonL l1 ++ '"' :: ',' :: ('"' :: (escJsonL "fromAmount".data ++ '"' :: ':' :: (numLitJson m1 e1 ++ ',' :: ('"' :: (escJsonL "toAsset".data ++ '"' :: ':' :: ('"' :: (escJsonL l2 ++ '"' :: ',' :: ('"' :: (escJsonL "toAmount".data ++ '"' :: ':' :: (numLitJson m2 e2 ++ ',' :: ('"' :: (escJsonL "timestamp".data ++ '"' :: ':' :: (natDecL ts ++ [rbrace]))))))))))))))))) := by
    simp [flatOfferJson, strLitJson]
  rw [h0]
  exact Eq.trans (parseJVal_obj (F + 6) _ '"' _
    (skipWs_cons _ _ (by decide)) (by decide)) (hm1 [])

theorem jsonParse_flat (t1 t2 : String) (m1 m2 : ℤ) (e1 e2 ts : ℕ) :
    jsonParse (flatOfferJson t1 m1 e1 t2 m2 e2 ts)
      = some (RVal.robj [("fromAsset", RVal.rstr t1),
          ("fromAmount", RVal.rnum (.num ((m1 : ℚ) / 10 ^ e1))),
          ("toAsset", RVal.rstr t2),
          ("toAmount", RVal.rnum (.num ((m2 : ℚ) / 10 ^ e2))),
          ("timestamp", RVal.rnum (.num ((ts : ℚ))))]) := by
  obtain ⟨l1⟩ := t1
  obtain ⟨l2⟩ := t2
  have h6 : 6 ≤ (flatOfferJson ⟨l1⟩ m1 e1 ⟨l2⟩ m2 e2 ts).length := by
    show 6 ≤ (flatOfferJson ⟨l1⟩ m1 e1 ⟨l2⟩ m2 e2 ts).data.length
    simp only [flatOfferJson, strLitJson, List.length_cons, List.length_append,
      List.length_nil]
    omega
  unfold jsonParse
  rw [show (flatOfferJson ⟨l1⟩ m1 e1 ⟨l2⟩ m2 e2 ts).length + 1
      = ((flatOfferJson ⟨l1⟩ m1 e1 ⟨l2⟩ m2 e2 ts).length - 6) + 7 from by
    omega]
  rw [parseJVal_flatOffer]
  rfl

theorem missingGuard_flat (t1 t2 : String) (q1 q2 : ℚ)
    (h1 : t1 ≠ "") (h2 : t2 ≠ "") :
    missingGuard (RVal.rstr t1) (RVal.rstr t2)
      (RVal.rnum (.num q1)) (RVal.rnum (.num q2)) = false := by
  have hnum : ∀ q : ℚ, (!(RVal.rnum (.num q)).truthy
      && !(RVal.rnum (.num q)).isZero) = false := by
    intro q
    by_cases hq : q = 0
    · subst hq
      simp [RVal.truthy, JSNum.truthy, RVal.isZero]
    · simp [RVal.truthy, JSNum.truthy, RVal.isZero, bne_iff_ne, beq_iff_eq, hq]
  unfold missingGuard
  rw [hnum, hnum]
  simp [RVal.truthy, bne_iff_ne, h1, h2]

theorem extractNormal_flat (t1 t2 : String) (m1 m2 : ℤ) (e1 e2 ts : ℕ)
    (mine : Bool) (key : String) (tsOpt : Option String)
    (h1 : t1 ≠ "") (h2 : t2 ≠ "") :
    extractNormal (flatOfferJson t1 m1 e1 t2 m2 e2 ts) mine key tsOpt
      = .ok (some {
          key := key
          fromAsset := jsToUpper t1
          fromAmount := RVal.rnum (.num ((m1 : ℚ) / 10 ^ e1))
          toAsset := jsToUpper t2
          toAmount := RVal.rnum (.num ((m2 : ℚ) / 10 ^ e2))
          timestamp := tsOpt
          rate := if (JSNum.num ((m1 : ℚ) / 10 ^ e1)).gtQ 0
            then ((JSNum.num ((m2 : ℚ) / 10 ^ e2)).div
              (JSNum.num ((m1 : ℚ) / 10 ^ e1))).toFixed 4
            else "0"
          rawMessage := flatOfferJson t1 m1 e1 t2 m2 e2 ts
          isDebugMode := false
          isValidJSON := true
          isMyOffer := mine }) := by
  unfold extractNormal
  rw [jsonParse_flat]
  simp only [Bind.bind, Except.bind, Pure.pure, Except.pure]
  rw [show extractShapes (RVal.robj [("fromAsset", RVal.rstr t1),
      ("fromAmount", RVal.rnum (.num ((m1 : ℚ) / 10 ^ e1))),
      ("toAsset", RVal.rstr t2),
      ("toAmount", RVal.rnum (.num ((m2 : ℚ) / 10 ^ e2))),
      ("timestamp", RVal.rnum (.num ((ts : ℚ))))])
      = Except.ok (RVal.rstr t1, RVal.rstr t2,
          RVal.rnum (.num ((m1 : ℚ) / 10 ^ e1)),
          RVal.rnum (.num ((m2 : ℚ) / 10 ^ e2))) from rfl]
  try dsimp only
  rw [if_neg (by
    simp [missingGuard_flat t1 t2 ((m1 : ℚ) / 10 ^ e1)
      ((m2 : ℚ) / 10 ^ e2) h1 h2])]
  rfl

/-- Claim C2: the flat-offer round trip.  An offer serialized in the
sender's own flat shape, base64-encoded and run through the normal-mode
extraction pass, yields exactly one offer whose fromAsset/toAsset are the
uppercased input tickers and whose fromAmount/toAmount are the input
amounts (every finite JavaScript amount is of the form m / 10^e). -/
theorem claim_C2 (topic username : String) (now : ℕ) (tss : Option String)
    (t1 t2 : String) (m1 m2 : ℤ) (e1 e2 ts : ℕ)
    (h1 : t1 ≠ "") (h2 : t2 ≠ "") :
    ∃ o, swapOffers (some topic) false username now
        [⟨encodeBase64Utf8 (flatOfferJson t1 m1 e1 t2 m2 e2 ts), topic, tss⟩]
      = [o]
      ∧ o.fromAsset = jsToUpper t1 ∧ o.toAsset = jsToUpper t2
      ∧ o.fromAmount = RVal.rnum (.num ((m1 : ℚ) / 10 ^ e1))
      ∧ o.toAmount = RVal.rnum (.num ((m2 : ℚ) / 10 ^ e2)) := by
  unfold swapOffers
  have hfil : List.filter
      (fun m => match some topic with
        | some t => m.contentTopic == t
        | none => false)
      [(⟨encodeBase64Utf8 (flatOfferJson t1 m1 e1 t2 m2 e2 ts), topic, tss⟩
        : Message)]
      = [⟨encodeBase64Utf8 (flatOfferJson t1 m1 e1 t2 m2 e2 ts), topic, tss⟩] := by
    simp [List.filter]
  rw [hfil]
  simp only [swapOffersFrom]
  rw [processMessage_eq_normal username now 0
    ⟨encodeBase64Utf8 (flatOfferJson t1 m1 e1 t2 m2 e2 ts), topic, tss⟩
    (flatOfferJson t1 m1 e1 t2 m2 e2 ts)
    (decode_encodeBase64Utf8 (flatOfferJson t1 m1 e1 t2 m2 e2 ts))]
  rw [extractNormal_flat t1 t2 m1 m2 e1 e2 ts _ _ _ h1 h2]
  exact ⟨_, rfl, rfl, rfl, rfl, rfl⟩

/-- Witness for claim C2 at the concrete offer 1 BTC → 6.5 USDC. -/
theorem claim_C2_witness :
    ("BTC" : String) ≠ "" ∧ ("USDC" : String) ≠ ""
    ∧ ∃ o, swapOffers (some "swap") false "alice" 0
        [⟨encodeBase64Utf8 (flatOfferJson "BTC" 1 0 "USDC" 65 1 5),
          "swap", some "7"⟩]
      = [o]
      ∧ o.fromAsset = jsToUpper "BTC" ∧ o.toAsset = jsToUpper "USDC"
      ∧ o.fromAmount = RVal.rnum (.num (((1 : ℤ) : ℚ) / 10 ^ (0 : ℕ)))
      ∧ o.toAmount = RVal.rnum (.num (((65 : ℤ) : ℚ) / 10 ^ (1 : ℕ))) :=
  ⟨by decide, by decide,
   claim_C2 "swap" "alice" 0 (some "7") "BTC" "USDC" 1 65 0 1 5
     (by decide) (by decide)⟩
